import Mathlib

/-!
Verification development for the takumi style-to-geometry pipeline.

Shallow embedding conventions: Rust `f32`/`f64` arithmetic is modelled over `ℚ`
(exact rationals), machine integers over `ℕ` with explicit `% 2^w` where the
source relies on wrapping, fallible code over `Option`, and interior mutability
(the calc arena) as explicit state passing.  Definitions mirror the functions in
`src/takumi/src` and keep their names.
-/

namespace Takumi

/-! Constants from `layout/style/properties/length.rs`. -/

def ONE_CM_IN_PX : ℚ := 96 / 2.54

def ONE_MM_IN_PX : ℚ := ONE_CM_IN_PX / 10

def ONE_Q_IN_PX : ℚ := ONE_CM_IN_PX / 40

def ONE_IN_PX : ℚ := 2.54 * ONE_CM_IN_PX

def ONE_PT_IN_PX : ℚ := ONE_IN_PX / 72

def ONE_PC_IN_PX : ℚ := ONE_IN_PX / 6

def CALC_ZERO_EPSILON : ℚ := 1 / 1000000

/-- Viewport data (`layout/viewport.rs`, in the revision used by `length.rs`,
which reads `device_pixel_ratio` off the viewport). -/
structure Viewport where
  width : Option ℕ
  height : Option ℕ
  font_size : ℚ
  device_pixel_ratio : ℚ
deriving Repr, DecidableEq

/-- The sizing context (`rendering/mod.rs`); its `calc_arena` field is modelled
as explicitly passed state instead of an `Arc<RwLock<_>>`. -/
structure Sizing where
  viewport : Viewport
  font_size : ℚ
deriving Repr, DecidableEq

/-- Fully resolved linear form of a calc expression: `px + percent * basis`. -/
structure CalcLinear where
  px : ℚ
  percent : ℚ
deriving Repr, DecidableEq

def CalcLinear.neg (l : CalcLinear) : CalcLinear :=
  { px := -l.px, percent := -l.percent }

def CalcLinear.resolve (l : CalcLinear) (basis : ℚ) : ℚ :=
  l.px + l.percent * basis

/-- Symbolic form of a calc expression before sizing is known: an additive
vector over the twelve units. -/
structure CalcFormula where
  px : ℚ := 0
  percent : ℚ := 0
  rem : ℚ := 0
  em : ℚ := 0
  vh : ℚ := 0
  vw : ℚ := 0
  cm : ℚ := 0
  mm : ℚ := 0
  inch : ℚ := 0
  q : ℚ := 0
  pt : ℚ := 0
  pc : ℚ := 0
deriving Repr, DecidableEq

def CalcFormula.neg (f : CalcFormula) : CalcFormula :=
  { px := -f.px, percent := -f.percent, rem := -f.rem, em := -f.em,
    vh := -f.vh, vw := -f.vw, cm := -f.cm, mm := -f.mm,
    inch := -f.inch, q := -f.q, pt := -f.pt, pc := -f.pc }

def CalcFormula.add (f g : CalcFormula) : CalcFormula :=
  { px := f.px + g.px, percent := f.percent + g.percent, rem := f.rem + g.rem,
    em := f.em + g.em, vh := f.vh + g.vh, vw := f.vw + g.vw,
    cm := f.cm + g.cm, mm := f.mm + g.mm, inch := f.inch + g.inch,
    q := f.q + g.q, pt := f.pt + g.pt, pc := f.pc + g.pc }

def CalcFormula.sub (f g : CalcFormula) : CalcFormula :=
  { px := f.px - g.px, percent := f.percent - g.percent, rem := f.rem - g.rem,
    em := f.em - g.em, vh := f.vh - g.vh, vw := f.vw - g.vw,
    cm := f.cm - g.cm, mm := f.mm - g.mm, inch := f.inch - g.inch,
    q := f.q - g.q, pt := f.pt - g.pt, pc := f.pc - g.pc }

def CalcFormula.scale (f : CalcFormula) (factor : ℚ) : CalcFormula :=
  { px := f.px * factor, percent := f.percent * factor, rem := f.rem * factor,
    em := f.em * factor, vh := f.vh * factor, vw := f.vw * factor,
    cm := f.cm * factor, mm := f.mm * factor, inch := f.inch * factor,
    q := f.q * factor, pt := f.pt * factor, pc := f.pc * factor }

/-- `CalcFormula::resolve`: fold every unit coefficient except percent into a
single px coefficient using the sizing context. -/
def CalcFormula.resolve (f : CalcFormula) (sizing : Sizing) : CalcLinear :=
  { px := f.px * sizing.viewport.device_pixel_ratio
      + f.rem * sizing.viewport.font_size * sizing.viewport.device_pixel_ratio
      + f.em * sizing.font_size
      + f.vh * (sizing.viewport.height.getD 0 : ℚ) / 100
      + f.vw * (sizing.viewport.width.getD 0 : ℚ) / 100
      + f.cm * ONE_CM_IN_PX * sizing.viewport.device_pixel_ratio
      + f.mm * ONE_MM_IN_PX * sizing.viewport.device_pixel_ratio
      + f.inch * ONE_IN_PX * sizing.viewport.device_pixel_ratio
      + f.q * ONE_Q_IN_PX * sizing.viewport.device_pixel_ratio
      + f.pt * ONE_PT_IN_PX * sizing.viewport.device_pixel_ratio
      + f.pc * ONE_PC_IN_PX * sizing.viewport.device_pixel_ratio,
    percent := f.percent }

/-- Intermediate value of the calc grammar: a unitless number or a formula. -/
inductive CalcValue where
  | Number (v : ℚ)
  | Formula (f : CalcFormula)
deriving Repr, DecidableEq

/-- Handle stored in `Length::Calc`. -/
inductive CalcHandle where
  | Formula (f : CalcFormula)
  | Linear (l : CalcLinear)
deriving Repr, DecidableEq

def calc_handle_to_linear (h : CalcHandle) (sizing : Sizing) : CalcLinear :=
  match h with
  | .Formula f => f.resolve sizing
  | .Linear l => l

def is_near_zero (v : ℚ) : Bool :=
  |v| ≤ CALC_ZERO_EPSILON

/-- The `Length` tagged union (the `DEFAULT_AUTO` const parameter only affects
`Default`, which no claim observes, and is dropped). -/
inductive Length where
  | Auto
  | Percentage (v : ℚ)
  | Rem (v : ℚ)
  | Em (v : ℚ)
  | Vh (v : ℚ)
  | Vw (v : ℚ)
  | Cm (v : ℚ)
  | Mm (v : ℚ)
  | In (v : ℚ)
  | Q (v : ℚ)
  | Pt (v : ℚ)
  | Pc (v : ℚ)
  | Px (v : ℚ)
  | Calc (h : CalcHandle)
deriving Repr, DecidableEq

def Length.to_px_pre_dpr (l : Length) (sizing : Sizing) (percentage_full_px : ℚ) : ℚ :=
  match l with
  | .Auto => 0
  | .Px value => value
  | .Percentage value => (value / 100) * percentage_full_px
  | .Rem value => value * sizing.viewport.font_size
  | .Em value => value * sizing.font_size
  | .Vh value => value * (sizing.viewport.height.getD 0 : ℚ) / 100
  | .Vw value => value * (sizing.viewport.width.getD 0 : ℚ) / 100
  | .Cm value => value * ONE_CM_IN_PX
  | .Mm value => value * ONE_MM_IN_PX
  | .In value => value * ONE_IN_PX
  | .Q value => value * ONE_Q_IN_PX
  | .Pt value => value * ONE_PT_IN_PX
  | .Pc value => value * ONE_PC_IN_PX
  | .Calc handle => (calc_handle_to_linear handle sizing).resolve percentage_full_px

/-- The `matches!` guard in `Length::to_px`: variants that do NOT get the
device-pixel-ratio applied. -/
def Length.is_dpr_exempt (l : Length) : Bool :=
  match l with
  | .Auto | .Percentage _ | .Vh _ | .Vw _ | .Em _ | .Calc _ => true
  | _ => false

def Length.to_px (l : Length) (sizing : Sizing) (percentage_full_px : ℚ) : ℚ :=
  let value := l.to_px_pre_dpr sizing percentage_full_px
  if l.is_dpr_exempt then value
  else value * sizing.viewport.device_pixel_ratio

/-- `MakeComputed for Length`: collapse em and calc formulas in place. -/
def Length.make_computed (l : Length) (sizing : Sizing) : Length :=
  match l with
  | .Em em => .Px (em * sizing.font_size)
  | .Calc (.Formula formula) =>
    let linear := formula.resolve sizing
    if is_near_zero linear.percent then
      .Px (linear.px / sizing.viewport.device_pixel_ratio)
    else if is_near_zero linear.px then
      .Percentage (linear.percent * 100)
    else
      .Calc (.Linear linear)
  | other => other

/-! The calc arena (`CalcArena` in `length.rs`).  The `RwLock<Vec<CalcLinear>>`
is modelled as an explicit `List CalcLinear` threaded through the operations;
the poisoned-lock recovery is the identity on this model.  Pointers are `usize`
values, modelled as naturals reduced mod `2^64`; `usize` wrapping subtraction
(`id - 1` in `resolve_calc_value`) is written out explicitly. -/

def USIZE_MOD : ℕ := 2 ^ 64

abbrev CalcArena : Type := List CalcLinear

def encode_linear_id (id : ℕ) : ℕ :=
  (id <<< 3) % USIZE_MOD

def decode_linear_id (ptr : ℕ) : Option ℕ :=
  if ptr ≠ 0 then some (ptr >>> 3) else none

def CalcArena.register_linear (arena : CalcArena) (linear : CalcLinear) :
    CalcArena × ℕ :=
  let arena' := arena ++ [linear]
  (arena', encode_linear_id arena'.length)

def CalcArena.resolve_calc_value (arena : CalcArena) (val : ℕ) (basis : ℚ) : ℚ :=
  match decode_linear_id val with
  | none => 0
  | some id =>
    (((arena.get? ((id + (USIZE_MOD - 1)) % USIZE_MOD)).map
      (fun linear => linear.resolve basis)).getD 0)

/-- Target of `Length::to_compact_length` (taffy's `CompactLength`): an auto
tag, a pixel length, a percent, or a calc pointer. -/
inductive CompactLength where
  | auto
  | length (v : ℚ)
  | percent (v : ℚ)
  | Calc (ptr : ℕ)
deriving Repr, DecidableEq

/-- `Length::to_compact_length`; registering a calc handle mutates the arena,
so the arena is passed and returned explicitly. -/
def Length.to_compact_length (l : Length) (sizing : Sizing) (arena : CalcArena) :
    CompactLength × CalcArena :=
  match l with
  | .Auto => (.auto, arena)
  | .Percentage value => (.percent (value / 100), arena)
  | .Rem value =>
    (.length (value * sizing.viewport.font_size * sizing.viewport.device_pixel_ratio),
      arena)
  | .Em value => (.length (value * sizing.font_size), arena)
  | .Vh value =>
    (.length ((sizing.viewport.height.getD 0 : ℚ) * value / 100), arena)
  | .Vw value =>
    (.length ((sizing.viewport.width.getD 0 : ℚ) * value / 100), arena)
  | .Calc handle =>
    let linear := calc_handle_to_linear handle sizing
    if is_near_zero linear.percent then
      (.length linear.px, arena)
    else if is_near_zero linear.px then
      (.percent linear.percent, arena)
    else
      let (arena', ptr) := arena.register_linear linear
      (.Calc ptr, arena')
  | other =>
    (.length (other.to_px sizing (sizing.viewport.width.getD 0 : ℚ)), arena)

/-! The calc expression parser (`parse_calc_sum` / `parse_calc_product` /
`parse_calc_factor` in `length.rs`).  The `cssparser` token stream is modelled
as a list of tokens, with nested blocks held inside their introducing function
token (mirroring `parse_nested_block`); a parse error is `none`.  The mutual
recursion is realised with a fuel parameter; every concrete evaluation in the
theorems supplies ample fuel. -/

inductive CssTok where
  | num (v : ℚ)
  | percentTok (unit_value : ℚ)
  | dim (v : ℚ) (unit : String)
  | delim (c : Char)
  | ident (s : String)
  | calcFn (block : List CssTok)
  | other

/-- The `'*'` combination arms of `parse_calc_product`. -/
def combineMul (lhs rhs : CalcValue) : Option CalcValue :=
  match lhs, rhs with
  | .Formula f, .Number r => some (.Formula (f.scale r))
  | .Number l, .Formula f => some (.Formula (f.scale l))
  | .Number l, .Number r => some (.Number (l * r))
  | _, _ => none

/-- The `'/'` combination arms of `parse_calc_product`: the
`(_, CalcValue::Number(0.0))` arm rejects any division by the number zero
before the other arms are tried. -/
def combineDiv (lhs rhs : CalcValue) : Option CalcValue :=
  match rhs with
  | .Number r =>
    if r = 0 then none
    else
      match lhs with
      | .Formula f => some (.Formula (f.scale (1 / r)))
      | .Number l => some (.Number (l / r))
  | .Formula _ => none

/-- The `'+'` combination arms of `parse_calc_sum`. -/
def combineAdd (lhs rhs : CalcValue) : Option CalcValue :=
  match lhs, rhs with
  | .Number l, .Number r => some (.Number (l + r))
  | .Formula l, .Formula r => some (.Formula (l.add r))
  | _, _ => none

/-- The `'-'` combination arms of `parse_calc_sum`. -/
def combineSub (lhs rhs : CalcValue) : Option CalcValue :=
  match lhs, rhs with
  | .Number l, .Number r => some (.Number (l - r))
  | .Formula l, .Formula r => some (.Formula (l.sub r))
  | _, _ => none

/-- Dimension-token dispatch in `parse_calc_factor`. -/
def calcDimension (v : ℚ) (unit : String) : Option CalcValue :=
  if unit = "px" then some (.Formula { px := v })
  else if unit = "em" then some (.Formula { em := v })
  else if unit = "rem" then some (.Formula { rem := v })
  else if unit = "vw" then some (.Formula { vw := v })
  else if unit = "vh" then some (.Formula { vh := v })
  else if unit = "cm" then some (.Formula { cm := v })
  else if unit = "mm" then some (.Formula { mm := v })
  else if unit = "in" then some (.Formula { inch := v })
  else if unit = "q" then some (.Formula { q := v })
  else if unit = "pt" then some (.Formula { pt := v })
  else if unit = "pc" then some (.Formula { pc := v })
  else none

mutual

def parse_calc_sum (fuel : ℕ) (toks : List CssTok) :
    Option (CalcValue × List CssTok) :=
  match fuel with
  | 0 => none
  | fuel + 1 =>
    match parse_calc_product fuel toks with
    | none => none
    | some (value, rest) => parse_calc_sum_loop fuel value rest

def parse_calc_sum_loop (fuel : ℕ) (value : CalcValue) (toks : List CssTok) :
    Option (CalcValue × List CssTok) :=
  match fuel with
  | 0 => none
  | fuel + 1 =>
    match toks with
    | .delim '+' :: rest =>
      match parse_calc_product fuel rest with
      | none => none
      | some (rhs, rest') =>
        match combineAdd value rhs with
        | none => none
        | some value' => parse_calc_sum_loop fuel value' rest'
    | .delim '-' :: rest =>
      match parse_calc_product fuel rest with
      | none => none
      | some (rhs, rest') =>
        match combineSub value rhs with
        | none => none
        | some value' => parse_calc_sum_loop fuel value' rest'
    | _ => some (value, toks)

def parse_calc_product (fuel : ℕ) (toks : List CssTok) :
    Option (CalcValue × List CssTok) :=
  match fuel with
  | 0 => none
  | fuel + 1 =>
    match parse_calc_factor fuel toks with
    | none => none
    | some (value, rest) => parse_calc_product_loop fuel value rest

def parse_calc_product_loop (fuel : ℕ) (value : CalcValue) (toks : List CssTok) :
    Option (CalcValue × List CssTok) :=
  match fuel with
  | 0 => none
  | fuel + 1 =>
    match toks with
    | .delim '*' :: rest =>
      match parse_calc_factor fuel rest with
      | none => none
      | some (rhs, rest') =>
        match combineMul value rhs with
        | none => none
        | some value' => parse_calc_product_loop fuel value' rest'
    | .delim '/' :: rest =>
      match parse_calc_factor fuel rest with
      | none => none
      | some (rhs, rest') =>
        match combineDiv value rhs with
        | none => none
        | some value' => parse_calc_product_loop fuel value' rest'
    | _ => some (value, toks)

def parse_calc_factor (fuel : ℕ) (toks : List CssTok) :
    Option (CalcValue × List CssTok) :=
  match fuel with
  | 0 => none
  | fuel + 1 =>
    match toks with
    | .delim '+' :: rest => parse_calc_factor fuel rest
    | .delim '-' :: rest =>
      match parse_calc_factor fuel rest with
      | none => none
      | some (.Number v, rest') => some (.Number (-v), rest')
      | some (.Formula f, rest') => some (.Formula f.neg, rest')
    | .num v :: rest => some (.Number v, rest)
    | .percentTok unit_value :: rest =>
      some (.Formula { percent := unit_value }, rest)
    | .dim v unit :: rest =>
      match calcDimension v unit with
      | none => none
      | some value => some (value, rest)
    | .calcFn block :: rest =>
      match parse_calc_sum fuel block with
      | none => none
      | some (value, _) => some (value, rest)
    | _ => none

end

mutual

def CssTok.size : CssTok → ℕ
  | .calcFn block => 1 + CssTok.sizeList block
  | _ => 1

def CssTok.sizeList : List CssTok → ℕ
  | [] => 0
  | t :: ts => CssTok.size t + CssTok.sizeList ts

end

/-- Fuel that is ample for any token list (each parser step consumes a token
or peels one constructor). -/
def calcFuel (toks : List CssTok) : ℕ :=
  8 * (CssTok.sizeList toks + 1)

/-- The `Length::from_css` arms (`FromCss for Length` in `length.rs`),
over the token-list model. -/
def Length.from_css (toks : List CssTok) : Option Length :=
  match toks with
  | .ident unit :: _ => if unit = "auto" then some .Auto else none
  | .calcFn block :: _ =>
    match parse_calc_sum (calcFuel block) block with
    | none => none
    | some (.Number value, _) => some (.Px value)
    | some (.Formula formula, _) => some (.Calc (.Formula formula))
  | .dim value unit :: _ =>
    if unit = "px" then some (.Px value)
    else if unit = "em" then some (.Em value)
    else if unit = "rem" then some (.Rem value)
    else if unit = "vw" then some (.Vw value)
    else if unit = "vh" then some (.Vh value)
    else if unit = "cm" then some (.Cm value)
    else if unit = "mm" then some (.Mm value)
    else if unit = "in" then some (.In value)
    else if unit = "q" then some (.Q value)
    else if unit = "pt" then some (.Pt value)
    else if unit = "pc" then some (.Pc value)
    else none
  | .percentTok unit_value :: _ => some (.Percentage (unit_value * 100))
  | .num value :: _ => some (.Px value)
  | _ => none

/-! Box tree builder (`layout/tree.rs`).  The `Display` enum and the
`InheritedStyle` struct are declared in style files absent from the source
snapshot, so they are modelled from the spec; the builder logic itself
(`NodeTree::from_node`, `NodeTree::from_node_impl`) is embedded from
`tree.rs`. -/

/-- Modelled from the spec: the display variants the builder distinguishes
(`layout/style` display file is missing from the snapshot).  The spec names
block-level containers, inline boxes, and the flexbox/grid containers solved by
the external layout engine. -/
inductive Display where
  | Block
  | Inline
  | Flex
  | Grid
deriving Repr, DecidableEq

/-- Modelled from the spec: `Display::to_block` forces the display to block
(used for root blockification and for blockified children). -/
def Display.to_block (_ : Display) : Display := .Block

/-- Modelled from the spec: `Display::as_block` is the block-level counterpart
of a display; the builder only applies it to `Display::Block` itself. -/
def Display.as_block (_ : Display) : Display := .Block

/-- Modelled from the spec: a container's computed display forces its children
to be block exactly for the displays solved by the external flexbox/grid
engine. -/
def Display.should_blockify_children (d : Display) : Bool :=
  match d with
  | .Flex | .Grid => true
  | .Block | .Inline => false

/-- Modelled from the spec: of `InheritedStyle` only the `display` field is
observed by the claims; the remaining typography/color fields are dropped. -/
structure InheritedStyle where
  display : Display := .Block
deriving Repr, DecidableEq

instance : Inhabited InheritedStyle := ⟨{}⟩

/-- Modelled from the spec: cascading is `child = declared.override(parent
inherited subset)`; `display` is not an inherited property, so the computed
display is the declared one. -/
def InheritedStyle.inherit (declared : InheritedStyle)
    (_parent : InheritedStyle) : InheritedStyle :=
  declared

/-- Input node (`Node` trait object): a declared style plus an optional child
list; the content payload is irrelevant to the builder claims. -/
inductive Node where
  | mk (style : InheritedStyle) (children : Option (List Node))

/-- The box tree.  `RenderContext` is narrowed to its style (the only field the
builder claims observe); the node payload is kept as an `Option Unit` so that
anonymous boxes (payload `none`) are distinguishable. -/
inductive NodeTree where
  | mk (style : InheritedStyle) (node : Option Unit)
       (children : Option (List NodeTree))

def NodeTree.style : NodeTree → InheritedStyle
  | .mk s _ _ => s

def NodeTree.nodePayload : NodeTree → Option Unit
  | .mk _ n _ => n

def NodeTree.childList : NodeTree → Option (List NodeTree)
  | .mk _ _ c => c

def NodeTree.is_inline (t : NodeTree) : Bool :=
  t.style.display = Display.Inline

/-- The anonymous block box style built in `from_node_impl`:
`InheritedStyle { display: Display::Block, ..InheritedStyle::default() }`. -/
def anonymous_box_style : InheritedStyle :=
  { (default : InheritedStyle) with display := .Block }

/-- An anonymous wrapper box: anonymous style, no node payload, the wrapped
inline run as children. -/
def anonBox (group : List NodeTree) : NodeTree :=
  .mk anonymous_box_style none (some group)

/-- Top-level display mutation of a child performed when the parent blockifies
its children (`child.context.style.display.to_block()`). -/
def NodeTree.blockified (t : NodeTree) : NodeTree :=
  match t with
  | .mk s n c => .mk { s with display := s.display.to_block } n c

/-- The anonymous-box grouping loop of `from_node_impl`: `final_children` is
the accumulator `acc`, `inline_group` is `group`. -/
def groupLoop : List NodeTree → List NodeTree → List NodeTree → List NodeTree
  | [], acc, group =>
    if group.isEmpty then acc else acc ++ [anonBox group]
  | item :: rest, acc, group =>
    if item.is_inline then
      groupLoop rest acc (group ++ [item])
    else
      let acc' := if group.isEmpty then acc else acc ++ [anonBox group]
      groupLoop rest (acc' ++ [item]) []

def from_node_impl (parent_style : InheritedStyle) : Node → NodeTree
  | .mk declared children =>
    let style := declared.inherit parent_style
    match children with
    | none => .mk style (some ()) none
    | some cs =>
      let children' := cs.attach.map fun c => from_node_impl style c.1
      if style.display.should_blockify_children then
        .mk style (some ()) (some (children'.map NodeTree.blockified))
      else
        let has_inline := children'.any NodeTree.is_inline
        let has_block := children'.any fun child => !child.is_inline
        let needs_anonymous_boxes :=
          style.display = Display.Block ∧ has_inline ∧ has_block
        if needs_anonymous_boxes then
          .mk { style with display := style.display.as_block } (some ())
            (some (groupLoop children' [] []))
        else
          .mk style (some ()) (some children')
termination_by n => sizeOf n
decreasing_by
  simp_wf
  have := List.sizeOf_lt_of_mem c.2
  omega

/-- `NodeTree::from_node`: build, then blockify the root if it is inline. -/
def from_node (parent_style : InheritedStyle) (node : Node) : NodeTree :=
  let tree := from_node_impl parent_style node
  if tree.is_inline then
    match tree with
    | .mk s n c => .mk { s with display := s.display.to_block } n c
  else
    tree

theorem dropWhile_length_le {α : Type} (p : α → Bool) :
    ∀ (l : List α), (l.dropWhile p).length ≤ l.length := by
  intro l
  induction l with
  | nil => simp [List.dropWhile]
  | cons a as ih =>
    by_cases h : p a
    · simp [List.dropWhile, h]
      omega
    · simp [List.dropWhile, h]

/-- Specification-side description of the grouping: walk the children,
wrapping each maximal run of consecutive inline children in one anonymous box
and passing block children through, in order. -/
def wrapRuns : List NodeTree → List NodeTree
  | [] => []
  | x :: xs =>
    if x.is_inline then
      anonBox (x :: xs.takeWhile NodeTree.is_inline)
        :: wrapRuns (xs.dropWhile NodeTree.is_inline)
    else
      x :: wrapRuns xs
termination_by l => l.length
decreasing_by
  · simp only [List.length_cons]
    exact Nat.lt_succ_of_le (dropWhile_length_le NodeTree.is_inline xs)
  · simp

/-! Inline flow line breaking (`break_lines` in `layout/inline.rs`).  The
external text-shaping collaborator (parley) is modelled through its contract
named in the spec: a breaker over the sequence of candidate lines the layout
would naturally break into under the width constraint.  `break_next` commits
the next candidate line and reports its height, `revert` undoes the last
committed break, `finish` seals the committed set.  A layout is therefore
represented by the list of its natural line heights, and `break_lines` returns
the heights of the committed lines, in order. -/

/-- The `MaxHeight` policy, with exactly the variants `break_lines`
matches on. -/
inductive MaxHeight where
  | Lines (lines : ℕ)
  | Absolute (max_height : ℚ)
  | HeightAndLines (max_height : ℚ) (max_lines : ℕ)
deriving Repr, DecidableEq

/-- The `MaxHeight::Lines` loop: up to `lines` calls to `break_next`, stopping
early when the breaker is exhausted. -/
def breakLinesCount : ℕ → List ℚ → List ℚ
  | 0, _ => []
  | _, [] => []
  | n + 1, h :: rest => h :: breakLinesCount n rest

/-- The `MaxHeight::Absolute` loop: `pending` are the candidate lines not yet
broken, `total_height` the accumulated height, `committed` the committed lines;
after the loop, a trial break that overshot the cap is reverted. -/
def breakAbsolute (max_height : ℚ) (pending : List ℚ) (total_height : ℚ)
    (committed : List ℚ) : List ℚ :=
  if total_height < max_height then
    match pending with
    | [] => committed
    | h :: rest => breakAbsolute max_height rest (total_height + h) (committed ++ [h])
  else if max_height < total_height then committed.dropLast
  else committed

/-- The `MaxHeight::HeightAndLines` loop: additionally stops once `line_count`
reaches `max_lines`. -/
def breakBoth (max_height : ℚ) (max_lines : ℕ) (pending : List ℚ)
    (total_height : ℚ) (line_count : ℕ) (committed : List ℚ) : List ℚ :=
  if total_height < max_height then
    if max_lines ≤ line_count then committed
    else
      match pending with
      | [] => committed
      | h :: rest =>
        breakBoth max_height max_lines rest (total_height + h)
          (line_count + 1) (committed ++ [h])
  else if max_height < total_height then committed.dropLast
  else committed

/-- `break_lines`: dispatch on the height policy; `None` breaks all lines. -/
def break_lines (natural_lines : List ℚ) (max_height : Option MaxHeight) :
    List ℚ :=
  match max_height with
  | none => natural_lines
  | some (.Lines lines) => breakLinesCount lines natural_lines
  | some (.Absolute max_height) => breakAbsolute max_height natural_lines 0 []
  | some (.HeightAndLines max_height max_lines) =>
    breakBoth max_height max_lines natural_lines 0 0 []

/-! Affine transforms (`layout/style/properties/transform.rs`), over exact
rationals.  `f32::EPSILON` is `2^-23`.  The source builds rotations from
`sin`/`cos` of the angle; a rotation matrix is modelled by an arbitrary point
`(s, c)` on the unit circle, which covers every angle. -/

def F32_EPSILON : ℚ := 1 / 2 ^ 23

/-- The 2×3 affine matrix `| a c x / b d y / 0 0 1 |`. -/
structure Affine where
  a : ℚ
  b : ℚ
  c : ℚ
  d : ℚ
  x : ℚ
  y : ℚ
deriving Repr, DecidableEq

def Affine.identity : Affine :=
  { a := 1, b := 0, c := 0, d := 1, x := 0, y := 0 }

/-- `impl Mul for Affine` (row-vector convention). -/
def Affine.mul (m rhs : Affine) : Affine :=
  { a := m.a * rhs.a + m.b * rhs.c
    b := m.a * rhs.b + m.b * rhs.d
    c := m.c * rhs.a + m.d * rhs.c
    d := m.c * rhs.b + m.d * rhs.d
    x := m.x * rhs.a + m.y * rhs.c + rhs.x
    y := m.x * rhs.b + m.y * rhs.d + rhs.y }

/-- `Affine::rotation` with `sin θ = s`, `cos θ = c`. -/
def Affine.rotationSC (s c : ℚ) : Affine :=
  { a := c, b := s, c := -s, d := c, x := 0, y := 0 }

def Affine.scale (x y : ℚ) : Affine :=
  { a := x, b := 0, c := 0, d := y, x := 0, y := 0 }

def Affine.determinant (m : Affine) : ℚ :=
  m.a * m.d - m.b * m.c

def Affine.invert (m : Affine) : Option Affine :=
  let det := m.determinant
  if |det| < F32_EPSILON then none
  else
    some
      { a := m.d / det
        b := m.b / -det
        c := m.c / -det
        d := m.a / det
        x := (m.d * m.x - m.c * m.y) / -det
        y := (m.b * m.x - m.a * m.y) / det }

/-! Box blur (`rendering/components/blur.rs`).  Buffers are flat byte arrays;
a source buffer is read through a total function `ℕ → ℕ` (the asserted bounds
make every read in range), the destination is produced as a list in write
order, which is exactly ascending offset order.  `u32` arithmetic carries an
explicit `% 2^32`, and the `as u8` store truncates with `% 2^8`. -/

def U32_MOD : ℕ := 2 ^ 32

structure BlurPassParams where
  width : ℕ
  height : ℕ
  radius : ℕ
  stride : ℕ
  mul_val : ℕ
  shg : ℕ
deriving Repr, DecidableEq

/-- `compute_mul_shg`: the fixed-point reciprocal `round(2^23 / d)` with shift
23.  The source computes the quotient in `f64`; for every diameter `d` that can
arise (`d = 2*radius + 1 < 2^24`, odd) the `f64` rounding agrees with exact
rational rounding, written here as `⌊(2^23 / d) + 1/2⌋ = (2^24 + d) / (2*d)`
in integer division. -/
def compute_mul_shg (d : ℕ) : ℕ × ℕ :=
  ((2 ^ 24 + d) / (2 * d), 23)

/-- One output step of a sliding-window pass over the channels `c < S`: emit
the bytes `(sum[c] * mul) >> shg` for the current position, then slide the
window by adding the entering byte and subtracting the leaving byte
(per-channel, in `u32`). -/
def blurPhaseStep (S mul shg : ℕ) (src : ℕ → ℕ) (enter leave : ℕ)
    (sums : ℕ → ℕ) : List ℕ × (ℕ → ℕ) :=
  ((List.range S).map fun c => (((sums c * mul) % U32_MOD) >>> shg) % 2 ^ 8,
    fun c =>
      let s1 := (sums c + src (enter + c)) % U32_MOD
      (s1 + (U32_MOD - src (leave + c) % U32_MOD)) % U32_MOD)

/-- A whole phase: fold `blurPhaseStep` over the positions `xs`, with
per-position entering/leaving offsets. -/
def blurPhase (S mul shg : ℕ) (src : ℕ → ℕ) (enterOff leaveOff : ℕ → ℕ)
    (xs : List ℕ) (sums : ℕ → ℕ) (acc : List ℕ) : List ℕ × (ℕ → ℕ) :=
  match xs with
  | [] => (acc, sums)
  | x :: rest =>
    let (outBytes, sums') :=
      blurPhaseStep S mul shg src (enterOff x) (leaveOff x) sums
    blurPhase S mul shg src enterOff leaveOff rest sums' (acc ++ outBytes)

/-- The initial window sum of `box_blur_h` for one row: the first pixel
weighted `radius + 1` times, then the pixels at `min dx (w-1)` for
`dx = 1..=radius`. -/
def blurInitSums (S : ℕ) (p : BlurPassParams) (src : ℕ → ℕ) (line_offset : ℕ) :
    ℕ → ℕ :=
  let w := p.width
  (List.range' 1 p.radius).foldl
    (fun sums dx => fun c =>
      (sums c + src (line_offset + min dx (w - 1) * S + c)) % U32_MOD)
    (fun c => (src (line_offset + c) * (p.radius + 1)) % U32_MOD)

/-- One row of the horizontal box-blur pass `box_blur_h`: the left
edge-clamped phase, the middle sliding phase, and the right edge-clamped
phase. -/
def box_blur_h_row (S : ℕ) (p : BlurPassParams) (src : ℕ → ℕ) (y : ℕ) :
    List ℕ :=
  let r := p.radius
  let w := p.width
  let line_offset := y * p.stride
  let sums := blurInitSums S p src line_offset
  let left_end := min (r + 1) w
  let middle_end := max (w - (r + 1)) left_end
  let phase1 :=
    blurPhase S p.mul_val p.shg src
      (fun x => line_offset + min (x + r + 1) (w - 1) * S)
      (fun _ => line_offset)
      (List.range' 0 left_end) sums []
  let phase2 :=
    blurPhase S p.mul_val p.shg src
      (fun x => line_offset + (x + r + 1) * S)
      (fun x => line_offset + (x - r) * S)
      (List.range' left_end (middle_end - left_end)) phase1.2 []
  let phase3 :=
    blurPhase S p.mul_val p.shg src
      (fun _ => line_offset + (w - 1) * S)
      (fun x => line_offset + (x - r) * S)
      (List.range' middle_end (w - middle_end)) phase2.2 []
  phase1.1 ++ phase2.1 ++ phase3.1

/-- `box_blur_h`: every row, in order. -/
def box_blur_h (S : ℕ) (p : BlurPassParams) (src : ℕ → ℕ) : List ℕ :=
  ((List.range p.height).map (box_blur_h_row S p src)).flatten

/-- One column-sweep row of the vertical pass `box_blur_v`: the columns
`x < stride` play the role the channels play horizontally, with row-sized
offsets. -/
def box_blur_v_row (p : BlurPassParams) (src : ℕ → ℕ) : List ℕ :=
  let r := p.radius
  let h := p.height
  let stride := p.stride
  let sums :=
    (List.range' 1 r).foldl
      (fun sums dy => fun x =>
        (sums x + src (min dy (h - 1) * stride + x)) % U32_MOD)
      (fun x => (src x * (r + 1)) % U32_MOD)
  let left_end := min (r + 1) h
  let middle_end := max (h - (r + 1)) left_end
  let phase1 :=
    blurPhase stride p.mul_val p.shg src
      (fun y => min (y + r + 1) (h - 1) * stride)
      (fun _ => 0)
      (List.range' 0 left_end) sums []
  let phase2 :=
    blurPhase stride p.mul_val p.shg src
      (fun y => (y + r + 1) * stride)
      (fun y => (y - r) * stride)
      (List.range' left_end (middle_end - left_end)) phase1.2 []
  let phase3 :=
    blurPhase stride p.mul_val p.shg src
      (fun _ => (h - 1) * stride)
      (fun y => (y - r) * stride)
      (List.range' middle_end (h - middle_end)) phase2.2 []
  phase1.1 ++ phase2.1 ++ phase3.1

def box_blur_v (p : BlurPassParams) (src : ℕ → ℕ) : List ℕ :=
  box_blur_v_row p src

/-- `BlurType`: how a CSS radius maps to the Gaussian standard deviation. -/
inductive BlurType where
  | Filter
  | Shadow
deriving Repr, DecidableEq

def BlurType.to_sigma (t : BlurType) (css_radius : ℚ) : ℚ :=
  match t with
  | .Filter => css_radius
  | .Shadow => css_radius * (1 / 2)

def BlurType.extent_multiplier (t : BlurType) : ℚ :=
  match t with
  | .Filter => 3
  | .Shadow => 3 / 2

/-- The box radius `round(max(1, (sqrt(4σ² + 1) - 1) / 2))` of `apply_blur`.
For `x ≥ 0`, `round((sqrt(q) - 1) / 2) = ⌊sqrt(q) / 2⌋`, and with
`σ = n / d` in lowest terms, `q = (4n² + d²) / d²`, so the floor is
`Nat.sqrt (4n² + d²) / (2d)` (the source's `f32` sqrt is correctly rounded and
agrees on every radius that arises). -/
def boxRadius (sigma : ℚ) : ℕ :=
  max 1 (Nat.sqrt (Int.toNat (4 * sigma.num * sigma.num) + sigma.den * sigma.den)
    / (2 * sigma.den))

/-- Read a byte buffer as a total function (the source's asserted bounds keep
all reads in range; out-of-range defaults never arise). -/
def listToFun (l : List ℕ) : ℕ → ℕ :=
  fun i => l.getD i 0

/-- One `box_blur_h` + `box_blur_v` round of `apply_blur`'s pass loop. -/
def blurRound (S : ℕ) (p : BlurPassParams) (buf : List ℕ) : List ℕ :=
  box_blur_v p (listToFun (box_blur_h S p (listToFun buf)))

/-- `apply_blur` on a buffer with `S` channels per pixel (`S = 4` for RGBA,
`S = 1` for alpha-only); the early guards are from the source, verbatim.  The
RGBA premultiply/unpremultiply steps live in a file missing from the snapshot
and sit strictly after both guards, so they are not modelled; no claim
evaluates past the guards except through the box-blur passes themselves. -/
def apply_blur (S width height : ℕ) (radius : ℚ) (blur_type : BlurType)
    (buf : List ℕ) : List ℕ :=
  let sigma := blur_type.to_sigma radius
  if sigma ≤ 1 / 2 then buf
  else if width = 0 ∨ height = 0 then buf
  else
    let box_radius := boxRadius sigma
    let div := 2 * box_radius + 1
    let (mul_val, shg) := compute_mul_shg div
    let stride := width * S
    let p : BlurPassParams :=
      { width := width, height := height, radius := box_radius,
        stride := stride, mul_val := mul_val, shg := shg }
    blurRound S p (blurRound S p (blurRound S p buf))

/-! Theorems.  Each claim of the specification-review is settled by exactly one
theorem below (witnesses and counterexamples aside). -/

/-- C5: converting a `Length` to pixels multiplies by the device-pixel-ratio
exactly for the absolute units (px, cm, mm, in, q, pt, pc) and for rem, and
does not apply the device-pixel-ratio to percentage, vw, vh, em, auto, or
already-resolved calc values. -/
theorem to_px_dpr_application (sizing : Sizing) (v basis : ℚ) (h : CalcHandle) :
    ((Length.Px v).to_px sizing basis
        = v * sizing.viewport.device_pixel_ratio)
  ∧ ((Length.Cm v).to_px sizing basis
        = v * ONE_CM_IN_PX * sizing.viewport.device_pixel_ratio)
  ∧ ((Length.Mm v).to_px sizing basis
        = v * ONE_MM_IN_PX * sizing.viewport.device_pixel_ratio)
  ∧ ((Length.In v).to_px sizing basis
        = v * ONE_IN_PX * sizing.viewport.device_pixel_ratio)
  ∧ ((Length.Q v).to_px sizing basis
        = v * ONE_Q_IN_PX * sizing.viewport.device_pixel_ratio)
  ∧ ((Length.Pt v).to_px sizing basis
        = v * ONE_PT_IN_PX * sizing.viewport.device_pixel_ratio)
  ∧ ((Length.Pc v).to_px sizing basis
        = v * ONE_PC_IN_PX * sizing.viewport.device_pixel_ratio)
  ∧ ((Length.Rem v).to_px sizing basis
        = v * sizing.viewport.font_size * sizing.viewport.device_pixel_ratio)
  ∧ ((Length.Percentage v).to_px sizing basis = (v / 100) * basis)
  ∧ ((Length.Vh v).to_px sizing basis
        = v * (sizing.viewport.height.getD 0 : ℚ) / 100)
  ∧ ((Length.Vw v).to_px sizing basis
        = v * (sizing.viewport.width.getD 0 : ℚ) / 100)
  ∧ ((Length.Em v).to_px sizing basis = v * sizing.font_size)
  ∧ (Length.Auto.to_px sizing basis = 0)
  ∧ ((Length.Calc h).to_px sizing basis
        = (calc_handle_to_linear h sizing).resolve basis) := by
  refine ⟨rfl, rfl, rfl, rfl, rfl, rfl, rfl, rfl, rfl, rfl, rfl, rfl, ?_, rfl⟩
  simp [Length.to_px, Length.to_px_pre_dpr, Length.is_dpr_exempt]

/-- C9: `apply_blur` is a no-op returning the buffer unchanged whenever the
derived Gaussian sigma is at most `0.5` or the buffer has zero width or zero
height. -/
theorem apply_blur_noop (S width height : ℕ) (radius : ℚ) (t : BlurType)
    (buf : List ℕ)
    (hcond : t.to_sigma radius ≤ 1 / 2 ∨ width = 0 ∨ height = 0) :
    apply_blur S width height radius t buf = buf := by
  simp only [apply_blur]
  by_cases h1 : t.to_sigma radius ≤ 1 / 2
  · rw [if_pos h1]
  · have h2 : width = 0 ∨ height = 0 := by tauto
    rw [if_neg h1, if_pos h2]

/-- C9 witness: a zero-width buffer with a large radius is returned
unchanged. -/
theorem apply_blur_noop_witness :
    apply_blur 1 0 5 3 BlurType.Filter [7, 8, 9] = [7, 8, 9] :=
  apply_blur_noop 1 0 5 3 BlurType.Filter [7, 8, 9] (Or.inr (Or.inl rfl))

/-- C8: `Affine::invert` returns `None` exactly when the determinant's
absolute value is below machine epsilon (`2^-23`); a zero-scale matrix has no
inverse; and the inverse of a rotation composed with the rotation itself is
the identity matrix (a rotation is any matrix built from a point `(s, c)` on
the unit circle). -/
theorem affine_invert_rotation (m : Affine) (s c : ℚ) (h : s ^ 2 + c ^ 2 = 1) :
    (m.invert = none ↔ |m.determinant| < F32_EPSILON)
  ∧ (Affine.scale 0 0).invert = none
  ∧ ((Affine.rotationSC s c).invert
        = some { a := c, b := -s, c := s, d := c, x := 0, y := 0 }
      ∧ (Affine.mul { a := c, b := -s, c := s, d := c, x := 0, y := 0 }
          (Affine.rotationSC s c)) = Affine.identity) := by
  have hdet : (Affine.rotationSC s c).determinant = 1 := by
    simp only [Affine.rotationSC, Affine.determinant]
    nlinarith [h]
  refine ⟨?_, ?_, ?_, ?_⟩
  · unfold Affine.invert
    by_cases hd : |m.determinant| < F32_EPSILON <;> simp [hd]
  · have h0 : (Affine.scale 0 0).determinant = 0 := by
      simp [Affine.scale, Affine.determinant]
    unfold Affine.invert
    rw [h0]
    norm_num [F32_EPSILON]
  · unfold Affine.invert
    rw [hdet]
    have : ¬ |(1 : ℚ)| < F32_EPSILON := by norm_num [F32_EPSILON]
    simp only [this, if_false, Option.some.injEq, Affine.mk.injEq,
      Affine.rotationSC]
    and_intros <;> ring
  · simp only [Affine.mul, Affine.rotationSC, Affine.identity, Affine.mk.injEq]
    refine ⟨by nlinarith [h], by ring, by ring, by nlinarith [h], by ring, by ring⟩

/-- C8 witness: at the unit-circle point `(3/5, 4/5)` the rotation's inverse
exists and cancels the rotation. -/
theorem affine_invert_rotation_witness :
    (Affine.rotationSC (3 / 5) (4 / 5)).invert
        = some { a := 4 / 5, b := -(3 / 5), c := 3 / 5, d := 4 / 5,
                 x := 0, y := 0 }
      ∧ (Affine.mul
          { a := 4 / 5, b := -(3 / 5), c := 3 / 5, d := 4 / 5, x := 0, y := 0 }
          (Affine.rotationSC (3 / 5) (4 / 5))) = Affine.identity :=
  (affine_invert_rotation Affine.identity (3 / 5) (4 / 5) (by norm_num)).2.2

/-! Helper lemmas for the calc arena, shared by the arena-safety and
calc-resolution theorems. -/

theorem USIZE_MOD_pos : 0 < USIZE_MOD := by
  simp [USIZE_MOD]

theorem encode_linear_id_eq (id : ℕ) (h : id < 2 ^ 61) :
    encode_linear_id id = id * 8 := by
  unfold encode_linear_id USIZE_MOD
  rw [Nat.shiftLeft_eq]
  have h8 : (2 : ℕ) ^ 3 = 8 := by norm_num
  rw [h8]
  apply Nat.mod_eq_of_lt
  omega

theorem resolve_calc_value_zero (arena : CalcArena) (basis : ℚ) :
    CalcArena.resolve_calc_value arena 0 basis = 0 := by
  simp [CalcArena.resolve_calc_value, decode_linear_id]

theorem resolve_calc_value_low_bits (arena : CalcArena) (raw : ℕ) (basis : ℚ)
    (hraw : raw < 8) (hlen : arena.length < USIZE_MOD) :
    CalcArena.resolve_calc_value arena raw basis = 0 := by
  rcases Nat.eq_zero_or_pos raw with h0 | hpos
  · subst h0
    exact resolve_calc_value_zero arena basis
  · have hdec : decode_linear_id raw = some 0 := by
      have h3 : raw >>> 3 = 0 := by
        rw [Nat.shiftRight_eq_div_pow]
        omega
      simp [decode_linear_id, Nat.pos_iff_ne_zero.mp hpos, h3]
    have hidx : (0 + (USIZE_MOD - 1)) % USIZE_MOD = USIZE_MOD - 1 := by
      apply Nat.mod_eq_of_lt
      have := USIZE_MOD_pos
      omega
    have hget : arena[USIZE_MOD - 1]? = (none : Option CalcLinear) := by
      apply List.getElem?_eq_none
      omega
    simp [CalcArena.resolve_calc_value, hdec, hidx, hget]

theorem resolve_calc_value_out_of_range (arena : CalcArena) (id : ℕ) (basis : ℚ)
    (h1 : 1 ≤ id) (h61 : id < 2 ^ 61) (hlen : arena.length ≤ id - 1) :
    CalcArena.resolve_calc_value arena (encode_linear_id id) basis = 0 := by
  rw [encode_linear_id_eq id h61]
  have hne : id * 8 ≠ 0 := by omega
  have hdec : decode_linear_id (id * 8) = some id := by
    have h3 : (id * 8) >>> 3 = id := by
      rw [Nat.shiftRight_eq_div_pow]
      omega
    simp [decode_linear_id, hne, h3]
  have hidx : (id + (USIZE_MOD - 1)) % USIZE_MOD = id - 1 := by
    have hsplit : id + (USIZE_MOD - 1) = (id - 1) + 1 * USIZE_MOD := by
      have := USIZE_MOD_pos
      omega
    rw [hsplit, Nat.add_mul_mod_self_right]
    apply Nat.mod_eq_of_lt
    simp only [USIZE_MOD]
    omega
  have hget : arena[id - 1]? = (none : Option CalcLinear) :=
    List.getElem?_eq_none hlen
  simp [CalcArena.resolve_calc_value, hdec, hidx, hget]

theorem resolve_calc_value_registered (arena : CalcArena) (linear : CalcLinear)
    (basis : ℚ) (hlen : arena.length + 1 < 2 ^ 61) :
    CalcArena.resolve_calc_value (arena ++ [linear])
        (encode_linear_id (arena.length + 1)) basis
      = linear.px + linear.percent * basis := by
  rw [encode_linear_id_eq _ hlen]
  have hne : (arena.length + 1) * 8 ≠ 0 := by omega
  have hdec : decode_linear_id ((arena.length + 1) * 8)
      = some (arena.length + 1) := by
    have h3 : ((arena.length + 1) * 8) >>> 3 = arena.length + 1 := by
      rw [Nat.shiftRight_eq_div_pow]
      omega
    simp [decode_linear_id, hne, h3]
  have hidx : (arena.length + 1 + (USIZE_MOD - 1)) % USIZE_MOD = arena.length := by
    have hsplit : arena.length + 1 + (USIZE_MOD - 1)
        = arena.length + 1 * USIZE_MOD := by
      have := USIZE_MOD_pos
      omega
    rw [hsplit, Nat.add_mul_mod_self_right]
    apply Nat.mod_eq_of_lt
    simp only [USIZE_MOD]
    omega
  have hget : (arena ++ [linear])[arena.length]? = some linear :=
    List.getElem?_concat_length arena linear
  simp [CalcArena.resolve_calc_value, hdec, hidx, hget, CalcLinear.resolve]

theorem register_linear_eq (arena : CalcArena) (linear : CalcLinear) :
    arena.register_linear linear
      = (arena ++ [linear], encode_linear_id (arena.length + 1)) := by
  simp [CalcArena.register_linear]

/-- C10: `CalcArena::resolve_calc_value` is total: the null pointer and any
pointer whose low bits decode to index zero yield `0.0`, an encoded index with
no registered entry yields `0.0`, and the handle returned by
`register_linear` resolves to `px + percent * basis`. -/
theorem resolve_calc_value_total (arena : CalcArena) (basis : ℚ) :
    (CalcArena.resolve_calc_value arena 0 basis = 0)
  ∧ (∀ raw : ℕ, raw < 8 → arena.length < USIZE_MOD →
      CalcArena.resolve_calc_value arena raw basis = 0)
  ∧ (∀ id : ℕ, 1 ≤ id → id < 2 ^ 61 → arena.length ≤ id - 1 →
      CalcArena.resolve_calc_value arena (encode_linear_id id) basis = 0)
  ∧ (∀ linear : CalcLinear, arena.length + 1 < 2 ^ 61 →
      CalcArena.resolve_calc_value (CalcArena.register_linear arena linear).1
          (CalcArena.register_linear arena linear).2 basis
        = linear.px + linear.percent * basis) := by
  refine ⟨resolve_calc_value_zero arena basis,
    fun raw h1 h2 => resolve_calc_value_low_bits arena raw basis h1 h2,
    fun id h1 h2 h3 => resolve_calc_value_out_of_range arena id basis h1 h2 h3,
    fun linear hlen => ?_⟩
  rw [register_linear_eq]
  exact resolve_calc_value_registered arena linear basis hlen

/-- C10 witness: on a one-entry arena, the null handle and an unregistered
index resolve to `0`, and a freshly registered linear value resolves to
`px + percent * basis`. -/
theorem resolve_calc_value_total_witness :
    (CalcArena.resolve_calc_value [⟨1, 2⟩] 0 10 = 0)
  ∧ (CalcArena.resolve_calc_value [⟨1, 2⟩] (encode_linear_id 5) 10 = 0)
  ∧ (CalcArena.resolve_calc_value
        (CalcArena.register_linear [] ⟨3, 1 / 2⟩).1
        (CalcArena.register_linear [] ⟨3, 1 / 2⟩).2 10 = 8) := by
  refine ⟨(resolve_calc_value_total [⟨1, 2⟩] 10).1,
    (resolve_calc_value_total [⟨1, 2⟩] 10).2.2.1 5 (by norm_num) (by norm_num)
      (by simp),
    ?_⟩
  have h := (resolve_calc_value_total ([] : CalcArena) 10).2.2.2 ⟨3, 1 / 2⟩
    (by norm_num)
  rw [h]
  norm_num

/-- C4: in a `calc()` expression, dividing by the number zero, dividing by a
unit-bearing operand, adding a unitless number to a unit-bearing operand, and
multiplying two unit-bearing operands are parse errors; `calc(1 + 2)` parses
to the pixel length `3.0`; `calc(10px / 0)` and `calc(1 + 2px)` are parse
errors (a malformed expression yields no value at all). -/
theorem calc_parse_errors (fuel : ℕ) (lhs : CalcValue)
    (toks rest : List CssTok) (f g : CalcFormula) (n : ℚ) :
    (parse_calc_factor fuel toks = some (.Number 0, rest) →
      parse_calc_product_loop (fuel + 1) lhs (.delim '/' :: toks) = none)
  ∧ (parse_calc_factor fuel toks = some (.Formula f, rest) →
      parse_calc_product_loop (fuel + 1) lhs (.delim '/' :: toks) = none)
  ∧ combineAdd (.Number n) (.Formula f) = none
  ∧ combineSub (.Number n) (.Formula f) = none
  ∧ combineMul (.Formula f) (.Formula g) = none
  ∧ Length.from_css [.calcFn [.num 1, .delim '+', .num 2]] = some (.Px 3)
  ∧ Length.from_css [.calcFn [.dim 10 "px", .delim '/', .num 0]] = none
  ∧ Length.from_css [.calcFn [.num 1, .delim '+', .dim 2 "px"]] = none := by
  refine ⟨?_, ?_, rfl, rfl, rfl, ?_, ?_, ?_⟩
  · intro h
    simp [parse_calc_product_loop, h, combineDiv]
  · intro h
    simp [parse_calc_product_loop, h, combineDiv]
  · simp only [Length.from_css, calcFuel, CssTok.sizeList, CssTok.size]
    norm_num
    simp [parse_calc_sum, parse_calc_sum_loop, parse_calc_product,
      parse_calc_product_loop, parse_calc_factor, combineAdd]
    norm_num
  · simp only [Length.from_css, calcFuel, CssTok.sizeList, CssTok.size]
    norm_num
    simp [parse_calc_sum, parse_calc_sum_loop, parse_calc_product,
      parse_calc_product_loop, parse_calc_factor, combineDiv, calcDimension]
  · simp only [Length.from_css, calcFuel, CssTok.sizeList, CssTok.size]
    norm_num
    simp [parse_calc_sum, parse_calc_sum_loop, parse_calc_product,
      parse_calc_product_loop, parse_calc_factor, combineAdd, calcDimension]

/-- C4 witness: dividing by the parsed number `0` aborts the product loop. -/
theorem calc_parse_errors_witness :
    parse_calc_product_loop 2 (.Number 1) [.delim '/', .num 0] = none :=
  (calc_parse_errors 1 (.Number 1) [.num 0] [] {} {} 0).1 rfl

/-- C3: resolving a calc formula yields the two-term linear form and exactly
one of three outcomes: a near-zero percent term collapses to a pure pixel
length with the device-pixel-ratio scaling undone (so a later `to_px` applies
the device-pixel-ratio exactly once overall); a near-zero px term collapses to
a pure percentage; otherwise the value stays a linear calc handle, is
registered in the arena by `to_compact_length`, and resolves against a
caller-supplied basis as `px + percent * basis`. -/
theorem make_computed_outcomes (f : CalcFormula) (sizing : Sizing)
    (arena : CalcArena) (basis : ℚ) :
    (is_near_zero (f.resolve sizing).percent = true →
      (Length.Calc (.Formula f)).make_computed sizing
          = .Px ((f.resolve sizing).px / sizing.viewport.device_pixel_ratio)
      ∧ (sizing.viewport.device_pixel_ratio ≠ 0 →
          (Length.Px ((f.resolve sizing).px / sizing.viewport.device_pixel_ratio)).to_px
              sizing basis
            = (f.resolve sizing).px))
  ∧ (is_near_zero (f.resolve sizing).percent = false →
     is_near_zero (f.resolve sizing).px = true →
      (Length.Calc (.Formula f)).make_computed sizing
        = .Percentage ((f.resolve sizing).percent * 100))
  ∧ (is_near_zero (f.resolve sizing).percent = false →
     is_near_zero (f.resolve sizing).px = false →
      (Length.Calc (.Formula f)).make_computed sizing
          = .Calc (.Linear (f.resolve sizing))
      ∧ (Length.Calc (.Formula f)).to_compact_length sizing arena
          = (.Calc (encode_linear_id (arena.length + 1)),
             arena ++ [f.resolve sizing])
      ∧ (arena.length + 1 < 2 ^ 61 →
          CalcArena.resolve_calc_value (arena ++ [f.resolve sizing])
              (encode_linear_id (arena.length + 1)) basis
            = (f.resolve sizing).px + (f.resolve sizing).percent * basis)) := by
  refine ⟨fun hp => ⟨?_, fun hdpr => ?_⟩, fun hp hx => ?_, fun hp hx => ⟨?_, ?_, ?_⟩⟩
  · simp [Length.make_computed, hp]
  · simp only [Length.to_px, Length.to_px_pre_dpr, Length.is_dpr_exempt]
    simp [div_mul_cancel₀ _ hdpr]
  · simp [Length.make_computed, hp, hx]
  · simp [Length.make_computed, hp, hx]
  · simp [Length.to_compact_length, calc_handle_to_linear, hp, hx,
      CalcArena.register_linear]
  · exact fun hlen => resolve_calc_value_registered arena (f.resolve sizing) basis hlen

/-- The sizing context of the source's own unit tests: viewport 200×100,
root font size 16, device-pixel-ratio 2, current font size 10. -/
def witnessSizing : Sizing :=
  { viewport := { width := some 200, height := some 100, font_size := 16,
                  device_pixel_ratio := 2 },
    font_size := 10 }

/-- C3 witness: `calc` formula `10px + 50%` in a context with
device-pixel-ratio `2` resolves to the linear form `(20, 1/2)`, stays a linear
calc handle, is registered in an empty arena, and resolves against basis `200`
to `120`. -/
theorem make_computed_outcomes_witness :
    ((Length.Calc (.Formula { px := 10, percent := 1 / 2 })).make_computed
        witnessSizing
        = .Calc (.Linear (({ px := 10, percent := 1 / 2 } :
            CalcFormula).resolve witnessSizing)))
  ∧ ((Length.Calc (.Formula { px := 10, percent := 1 / 2 })).to_compact_length
        witnessSizing []
        = (.Calc (encode_linear_id 1),
           [({ px := 10, percent := 1 / 2 } : CalcFormula).resolve witnessSizing]))
  ∧ (CalcArena.resolve_calc_value
        [({ px := 10, percent := 1 / 2 } : CalcFormula).resolve witnessSizing]
        (encode_linear_id 1) 200 = 120) := by
  have hpercent : (({ px := 10, percent := 1 / 2 } :
      CalcFormula).resolve witnessSizing).percent = 1 / 2 := by
    norm_num [CalcFormula.resolve, witnessSizing]
  have hpx : (({ px := 10, percent := 1 / 2 } :
      CalcFormula).resolve witnessSizing).px = 20 := by
    norm_num [CalcFormula.resolve, witnessSizing, ONE_CM_IN_PX, ONE_MM_IN_PX,
      ONE_IN_PX, ONE_Q_IN_PX, ONE_PT_IN_PX, ONE_PC_IN_PX]
  have hp : is_near_zero (({ px := 10, percent := 1 / 2 } :
      CalcFormula).resolve witnessSizing).percent = false := by
    rw [hpercent]
    simp only [is_near_zero, CALC_ZERO_EPSILON]
    rw [decide_eq_false_iff_not, abs_of_pos (by norm_num)]
    norm_num
  have hx : is_near_zero (({ px := 10, percent := 1 / 2 } :
      CalcFormula).resolve witnessSizing).px = false := by
    rw [hpx]
    simp only [is_near_zero, CALC_ZERO_EPSILON]
    rw [decide_eq_false_iff_not, abs_of_pos (by norm_num)]
    norm_num
  have h := (make_computed_outcomes { px := 10, percent := 1 / 2 }
    witnessSizing [] 200).2.2 hp hx
  refine ⟨h.1, ?_, ?_⟩
  · have h2 := h.2.1
    simpa using h2
  · have h3 := h.2.2 (by norm_num)
    rw [show (List.length ([] : CalcArena) + 1) = 1 from rfl] at h3
    simp only [List.nil_append] at h3
    rw [h3, hpx, hpercent]
    norm_num

/-- C6: the root of the built box tree is blockified: when the built root's
computed display is inline it is forced to block, so the root's resolved
display is never inline; a non-inline root is returned untouched. -/
theorem root_blockified (parent_style : InheritedStyle) (node : Node) :
    ((from_node parent_style node).style.display ≠ Display.Inline)
  ∧ ((from_node_impl parent_style node).is_inline = true →
      (from_node parent_style node).style.display = Display.Block)
  ∧ ((from_node_impl parent_style node).is_inline = false →
      from_node parent_style node = from_node_impl parent_style node) := by
  rcases htree : from_node_impl parent_style node with ⟨s, n, c⟩
  cases hd : s.display <;>
    refine ⟨?_, ?_, ?_⟩ <;>
      simp [from_node, htree, NodeTree.is_inline, NodeTree.style, hd,
        Display.to_block]

/-- C6 witness: a root declared `display: inline` is built inline by
`from_node_impl` and blockified by `from_node`. -/
theorem root_blockified_witness :
    ((from_node_impl { display := .Block } (.mk { display := .Inline } none)).is_inline
        = true)
  ∧ ((from_node { display := .Block } (.mk { display := .Inline } none)).style.display
        = Display.Block) := by
  have h1 : (from_node_impl { display := .Block }
      (.mk { display := .Inline } none)).is_inline = true := by
    simp [from_node_impl, InheritedStyle.inherit, NodeTree.is_inline,
      NodeTree.style]
  exact ⟨h1,
    (root_blockified { display := .Block } (.mk { display := .Inline } none)).2.1 h1⟩

/-! Helper lemmas for the line-breaking theorem. -/

theorem breakLinesCount_eq_take :
    ∀ (n : ℕ) (pending : List ℚ), breakLinesCount n pending = pending.take n := by
  intro n
  induction n with
  | zero => intro pending; cases pending <;> rfl
  | succ m ih =>
    intro pending
    cases pending with
    | nil => rfl
    | cons h rest => simp [breakLinesCount, ih, List.take_succ_cons]

theorem breakAbsolute_go (H : ℚ) :
    ∀ (pending committed : List ℚ), committed.sum < H →
    ∃ k, breakAbsolute H pending committed.sum committed
          = committed ++ pending.take k
      ∧ (committed ++ pending.take k).sum ≤ H
      ∧ (k = pending.length ∨ (committed ++ pending.take k).sum = H
          ∨ H < (committed ++ pending.take (k + 1)).sum) := by
  intro pending
  induction pending with
  | nil =>
    intro committed hlt
    refine ⟨0, ?_, ?_, Or.inl rfl⟩
    · rw [breakAbsolute, if_pos hlt]
      simp
    · simpa using le_of_lt hlt
  | cons h rest ih =>
    intro committed hlt
    have step : breakAbsolute H (h :: rest) committed.sum committed
        = breakAbsolute H rest (committed.sum + h) (committed ++ [h]) := by
      rw [breakAbsolute, if_pos hlt]
    rw [step]
    have hsum : (committed ++ [h]).sum = committed.sum + h := by simp
    by_cases hnext : committed.sum + h < H
    · have hrec := ih (committed ++ [h]) (by rw [hsum]; exact hnext)
      rw [hsum] at hrec
      obtain ⟨k, heq, hle, hlast⟩ := hrec
      refine ⟨k + 1, ?_, ?_, ?_⟩
      · rw [heq]
        simp [List.take_succ_cons]
      · simpa [List.take_succ_cons, List.append_assoc] using hle
      · rcases hlast with hk | hk | hk
        · exact Or.inl (by simp [hk])
        · exact Or.inr (Or.inl
            (by simpa [List.take_succ_cons, List.append_assoc] using hk))
        · exact Or.inr (Or.inr
            (by simpa [List.take_succ_cons, List.append_assoc] using hk))
    · have step2 : breakAbsolute H rest (committed.sum + h) (committed ++ [h])
          = if H < committed.sum + h then (committed ++ [h]).dropLast
            else committed ++ [h] := by
        rw [breakAbsolute.eq_def]
        rw [if_neg hnext]
      rw [step2]
      by_cases hgt : H < committed.sum + h
      · rw [if_pos hgt, List.dropLast_concat]
        refine ⟨0, by simp, by simpa using le_of_lt hlt,
          Or.inr (Or.inr ?_)⟩
        simpa using hgt
      · rw [if_neg hgt]
        have heq : committed.sum + h = H :=
          le_antisymm (not_lt.mp hgt) (not_lt.mp hnext)
        refine ⟨1, by simp, ?_, Or.inr (Or.inl ?_)⟩
        · simpa using le_of_eq heq
        · simpa using heq

theorem breakBoth_go (H : ℚ) (ML : ℕ) :
    ∀ (pending committed : List ℚ), committed.sum < H → committed.length ≤ ML →
    ∃ k, breakBoth H ML pending committed.sum committed.length committed
          = committed ++ pending.take k
      ∧ committed.length + k ≤ ML
      ∧ (committed ++ pending.take k).sum ≤ H := by
  intro pending
  induction pending with
  | nil =>
    intro committed hlt hml
    refine ⟨0, ?_, by omega, by simpa using le_of_lt hlt⟩
    rw [breakBoth, if_pos hlt]
    by_cases hc : ML ≤ committed.length
    · rw [if_pos hc]
      simp
    · rw [if_neg hc]
      simp
  | cons h rest ih =>
    intro committed hlt hml
    by_cases hc : ML ≤ committed.length
    · refine ⟨0, ?_, by omega, by simpa using le_of_lt hlt⟩
      rw [breakBoth, if_pos hlt, if_pos hc]
      simp
    · have hcount : committed.length < ML := lt_of_not_le hc
      have step : breakBoth H ML (h :: rest) committed.sum committed.length committed
          = breakBoth H ML rest (committed.sum + h) (committed.length + 1)
              (committed ++ [h]) := by
        rw [breakBoth, if_pos hlt, if_neg hc]
      rw [step]
      have hsum : (committed ++ [h]).sum = committed.sum + h := by simp
      have hlen : (committed ++ [h]).length = committed.length + 1 := by simp
      by_cases hnext : committed.sum + h < H
      · have hrec := ih (committed ++ [h]) (by rw [hsum]; exact hnext)
          (by rw [hlen]; omega)
        rw [hsum, hlen] at hrec
        obtain ⟨k, heq, hkml, hkle⟩ := hrec
        refine ⟨k + 1, ?_, by omega, ?_⟩
        · rw [heq]
          simp [List.take_succ_cons]
        · simpa [List.take_succ_cons, List.append_assoc] using hkle
      · have step2 : breakBoth H ML rest (committed.sum + h) (committed.length + 1)
              (committed ++ [h])
            = if H < committed.sum + h then (committed ++ [h]).dropLast
              else committed ++ [h] := by
          rw [breakBoth.eq_def]
          rw [if_neg hnext]
        rw [step2]
        by_cases hgt : H < committed.sum + h
        · rw [if_pos hgt, List.dropLast_concat]
          exact ⟨0, by simp, by omega, by simpa using le_of_lt hlt⟩
        · rw [if_neg hgt]
          have heq : committed.sum + h = H :=
            le_antisymm (not_lt.mp hgt) (not_lt.mp hnext)
          refine ⟨1, by simp, by omega, ?_⟩
          simpa using le_of_eq heq

/-- C2: line breaking under a line-count cap commits exactly the first
`min L (number of natural lines)` lines (so exactly `L` when the text breaks
into more); under a height cap the committed set is always a whole-line
prefix of the natural lines whose total height never exceeds the cap, and it
is maximal: either everything was committed, the cap was hit exactly, or the
next line would push the total past the cap (the reverted trial break); the
combined policy additionally caps the line count. -/
theorem break_lines_policy (natural : List ℚ) (L : ℕ) (H : ℚ) (ML : ℕ)
    (hH : 0 ≤ H) :
    (break_lines natural (some (.Lines L)) = natural.take L)
  ∧ (L < natural.length → (break_lines natural (some (.Lines L))).length = L)
  ∧ (∃ k, break_lines natural (some (.Absolute H)) = natural.take k
      ∧ (natural.take k).sum ≤ H
      ∧ (k = natural.length ∨ (natural.take k).sum = H
          ∨ H < (natural.take (k + 1)).sum))
  ∧ (∃ k, break_lines natural (some (.HeightAndLines H ML)) = natural.take k
      ∧ k ≤ ML ∧ (natural.take k).sum ≤ H) := by
  have htake := breakLinesCount_eq_take L natural
  refine ⟨htake, ?_, ?_, ?_⟩
  · intro hlen
    rw [show break_lines natural (some (.Lines L)) = breakLinesCount L natural
      from rfl, htake, List.length_take]
    omega
  · rcases lt_or_eq_of_le hH with hpos | hzero
    · have hgo := breakAbsolute_go H natural [] (by simpa using hpos)
      simp only [List.sum_nil, List.nil_append] at hgo
      exact hgo
    · refine ⟨0, ?_, by simpa using le_of_eq hzero, ?_⟩
      · rw [show break_lines natural (some (.Absolute H))
          = breakAbsolute H natural 0 [] from rfl]
        rw [breakAbsolute.eq_def, if_neg (by rw [← hzero]; exact lt_irrefl 0),
          if_neg (by rw [← hzero]; exact lt_irrefl 0)]
        simp
      · exact Or.inr (Or.inl (by simp [← hzero]))
  · rcases lt_or_eq_of_le hH with hpos | hzero
    · have hgo := breakBoth_go H ML natural [] (by simpa using hpos)
        (by simp)
      simp only [List.sum_nil, List.length_nil, List.nil_append,
        Nat.zero_add] at hgo
      exact hgo
    · refine ⟨0, ?_, by omega, by simpa using le_of_eq hzero⟩
      rw [show break_lines natural (some (.HeightAndLines H ML))
        = breakBoth H ML natural 0 0 [] from rfl]
      rw [breakBoth.eq_def, if_neg (by rw [← hzero]; exact lt_irrefl 0),
        if_neg (by rw [← hzero]; exact lt_irrefl 0)]
      simp

/-- C2 witness: five natural lines of height `10`; a line cap of `2` commits
exactly two lines, a height cap of `25` commits `[10, 10]` and reverts the
trial third line. -/
theorem break_lines_policy_witness :
    (break_lines [10, 10, 10, 10, 10] (some (.Lines 2)) = [10, 10])
  ∧ (break_lines [10, 10, 10, 10, 10] (some (.Lines 2))).length = 2
  ∧ (∃ k, break_lines [10, 10, 10, 10, 10] (some (.Absolute 25))
        = ([10, 10, 10, 10, 10] : List ℚ).take k
      ∧ (([10, 10, 10, 10, 10] : List ℚ).take k).sum ≤ 25
      ∧ (k = ([10, 10, 10, 10, 10] : List ℚ).length
          ∨ (([10, 10, 10, 10, 10] : List ℚ).take k).sum = 25
          ∨ (25 : ℚ) < (([10, 10, 10, 10, 10] : List ℚ).take (k + 1)).sum)) := by
  have h := break_lines_policy [10, 10, 10, 10, 10] 2 25 3 (by norm_num)
  refine ⟨?_, ?_, h.2.2.1⟩
  · rw [h.1]
    rfl
  · rw [h.2.1 (by norm_num)]

/-! Helper lemmas for the anonymous-box theorem: the grouping loop of
`from_node_impl` computes exactly the maximal-run wrapping `wrapRuns`. -/

theorem takeWhile_of_all {α : Type} (p : α → Bool) :
    ∀ (l : List α), (∀ a ∈ l, p a = true) →
      l.takeWhile p = l ∧ l.dropWhile p = [] := by
  intro l
  induction l with
  | nil => intro _; simp
  | cons a as ih =>
    intro h
    have ha : p a = true := h a (by simp)
    have has : ∀ x ∈ as, p x = true := fun x hx => h x (by simp [hx])
    simp [List.takeWhile_cons, List.dropWhile_cons, ha, ih has]

theorem takeWhile_append_of_all {α : Type} (p : α → Bool) :
    ∀ (group : List α) (x : α) (xs : List α),
      (∀ a ∈ group, p a = true) → p x = false →
      (group ++ x :: xs).takeWhile p = group
        ∧ (group ++ x :: xs).dropWhile p = x :: xs := by
  intro group
  induction group with
  | nil =>
    intro x xs _ hx
    simp [List.takeWhile_cons, List.dropWhile_cons, hx]
  | cons g gs ih =>
    intro x xs hg hx
    have hgtrue : p g = true := hg g (by simp)
    have hgs : ∀ a ∈ gs, p a = true := fun a ha => hg a (by simp [ha])
    have := ih x xs hgs hx
    simp [List.takeWhile_cons, List.dropWhile_cons, hgtrue, this.1, this.2]

theorem wrapRuns_nil : wrapRuns [] = [] := by
  rw [wrapRuns]

theorem wrapRuns_cons_block (x : NodeTree) (xs : List NodeTree)
    (hx : x.is_inline = false) :
    wrapRuns (x :: xs) = x :: wrapRuns xs := by
  rw [wrapRuns]
  simp [hx]

theorem wrapRuns_all_inline (group : List NodeTree) (hne : group ≠ [])
    (hg : ∀ g ∈ group, g.is_inline = true) :
    wrapRuns group = [anonBox group] := by
  cases group with
  | nil => exact absurd rfl hne
  | cons g gs =>
    have hgtrue : g.is_inline = true := hg g (by simp)
    have hgs : ∀ a ∈ gs, a.is_inline = true := fun a ha => hg a (by simp [ha])
    obtain ⟨ht, hd⟩ := takeWhile_of_all NodeTree.is_inline gs hgs
    rw [wrapRuns]
    simp [hgtrue, ht, hd, wrapRuns_nil]

theorem wrapRuns_inline_run (group : List NodeTree) (x : NodeTree)
    (xs : List NodeTree) (hne : group ≠ [])
    (hg : ∀ g ∈ group, g.is_inline = true) (hx : x.is_inline = false) :
    wrapRuns (group ++ x :: xs) = anonBox group :: wrapRuns (x :: xs) := by
  cases group with
  | nil => exact absurd rfl hne
  | cons g gs =>
    have hgtrue : g.is_inline = true := hg g (by simp)
    have hgs : ∀ a ∈ gs, a.is_inline = true := fun a ha => hg a (by simp [ha])
    obtain ⟨ht, hd⟩ := takeWhile_append_of_all NodeTree.is_inline gs x xs hgs hx
    rw [List.cons_append, wrapRuns]
    simp [hgtrue, ht, hd]

theorem groupLoop_eq_wrapRuns :
    ∀ (items acc group : List NodeTree), (∀ g ∈ group, g.is_inline = true) →
      groupLoop items acc group = acc ++ wrapRuns (group ++ items) := by
  intro items
  induction items with
  | nil =>
    intro acc group hg
    rw [groupLoop]
    by_cases hne : group = []
    · subst hne
      simp [wrapRuns_nil]
    · rw [List.append_nil, wrapRuns_all_inline group hne hg]
      simp [List.isEmpty_iff, hne]
  | cons x rest ih =>
    intro acc group hg
    rw [groupLoop]
    by_cases hx : x.is_inline
    · rw [if_pos hx]
      have hg' : ∀ g ∈ group ++ [x], g.is_inline = true := by
        intro g hgmem
        rcases List.mem_append.mp hgmem with hmem | hmem
        · exact hg g hmem
        · simp only [List.mem_singleton] at hmem
          subst hmem
          exact hx
      rw [ih acc (group ++ [x]) hg']
      simp [List.append_assoc]
    · rw [if_neg hx]
      have hxf : x.is_inline = false := by
        simpa using hx
      by_cases hne : group = []
      · subst hne
        rw [ih _ [] (by simp)]
        simp [List.isEmpty_nil, wrapRuns_cons_block x rest hxf]
      · rw [ih _ [] (by simp)]
        rw [List.nil_append, wrapRuns_inline_run group x rest hne hg hxf,
          wrapRuns_cons_block x rest hxf]
        simp [List.isEmpty_iff, hne]

theorem from_node_impl_leaf (parent_style declared : InheritedStyle) :
    from_node_impl parent_style (.mk declared none)
      = .mk (declared.inherit parent_style) (some ()) none := by
  rw [from_node_impl]

theorem from_node_impl_container (parent_style declared : InheritedStyle)
    (cs : List Node) (hblockify :
      (declared.inherit parent_style).display.should_blockify_children = false) :
    from_node_impl parent_style (.mk declared (some cs))
      = (if ((declared.inherit parent_style).display = Display.Block
            ∧ (cs.map (from_node_impl (declared.inherit parent_style))).any
                NodeTree.is_inline
            ∧ (cs.map (from_node_impl (declared.inherit parent_style))).any
                (fun child => !child.is_inline)) then
          .mk { declared.inherit parent_style with
                display := (declared.inherit parent_style).display.as_block }
            (some ())
            (some (groupLoop
              (cs.map (from_node_impl (declared.inherit parent_style))) [] []))
        else
          .mk (declared.inherit parent_style) (some ())
            (some (cs.map (from_node_impl (declared.inherit parent_style))))) := by
  rw [from_node_impl]
  simp only [hblockify, Bool.false_eq_true, if_false, List.map_subtype,
    List.unattach_attach]

/-- C1: in a block container whose children are a non-empty mix of inline and
block boxes, the builder wraps each maximal run of consecutive inline children
in exactly one anonymous block box (no node payload, default inherited style
with display block), preserving order (`wrapRuns` is that run-partition
description, and the builder's grouping loop equals it); when the children all
share inline-ness no anonymous box is created and the child list is returned
untouched; a container with children `[block, inline, block]` yields exactly
three children, the second being one anonymous box holding only the inline
child. -/
theorem anonymous_box_insertion (parent_style declared : InheritedStyle)
    (cs : List Node)
    (hdisp : (declared.inherit parent_style).display = Display.Block) :
    ((cs.map (from_node_impl (declared.inherit parent_style))).any
        NodeTree.is_inline = true →
     (cs.map (from_node_impl (declared.inherit parent_style))).any
        (fun child => !child.is_inline) = true →
      from_node_impl parent_style (.mk declared (some cs))
        = .mk (declared.inherit parent_style) (some ())
            (some (wrapRuns
              (cs.map (from_node_impl (declared.inherit parent_style))))))
  ∧ (((cs.map (from_node_impl (declared.inherit parent_style))).any
        NodeTree.is_inline = false
      ∨ (cs.map (from_node_impl (declared.inherit parent_style))).any
        (fun child => !child.is_inline) = false) →
      from_node_impl parent_style (.mk declared (some cs))
        = .mk (declared.inherit parent_style) (some ())
            (some (cs.map (from_node_impl (declared.inherit parent_style)))))
  ∧ (∀ run : List NodeTree,
      anonBox run = NodeTree.mk anonymous_box_style none (some run))
  ∧ (from_node_impl { display := .Block }
        (.mk { display := .Block } (some
          [.mk { display := .Block } none, .mk { display := .Inline } none,
           .mk { display := .Block } none]))
      = .mk { display := .Block } (some ())
          (some [.mk { display := .Block } (some ()) none,
                 anonBox [.mk { display := .Inline } (some ()) none],
                 .mk { display := .Block } (some ()) none])) := by
  have hsty : declared.inherit parent_style = { display := Display.Block } := by
    rcases h : declared.inherit parent_style with ⟨d⟩
    rw [h] at hdisp
    simp only at hdisp
    rw [hdisp]
  have hblockify :
      (declared.inherit parent_style).display.should_blockify_children = false := by
    rw [hdisp]
    rfl
  have hcont := from_node_impl_container parent_style declared cs hblockify
  refine ⟨fun hinl hblk => ?_, fun hpure => ?_, fun run => rfl, ?_⟩
  · rw [hcont, if_pos ⟨hdisp, hinl, hblk⟩]
    rw [groupLoop_eq_wrapRuns _ [] [] (by simp)]
    rw [hsty]
    simp [Display.as_block]
  · rw [hcont, if_neg]
    intro ⟨_, h2, h3⟩
    rcases hpure with hp | hp
    · rw [hp] at h2
      cases h2
    · rw [hp] at h3
      cases h3
  · have hleafB : from_node_impl { display := Display.Block }
        (.mk { display := Display.Block } none)
        = .mk { display := Display.Block } (some ()) none :=
      from_node_impl_leaf _ _
    have hleafI : from_node_impl { display := Display.Block }
        (.mk { display := Display.Inline } none)
        = .mk { display := Display.Inline } (some ()) none :=
      from_node_impl_leaf _ _
    have hcont2 := from_node_impl_container { display := Display.Block }
      { display := Display.Block }
      [.mk { display := .Block } none, .mk { display := .Inline } none,
       .mk { display := .Block } none] rfl
    rw [hcont2]
    simp only [List.map_cons, List.map_nil, hleafB, hleafI,
      InheritedStyle.inherit]
    rw [if_pos (by simp [NodeTree.is_inline, NodeTree.style])]
    rw [groupLoop_eq_wrapRuns _ [] [] (by simp)]
    rw [List.nil_append, List.nil_append]
    simp [wrapRuns, NodeTree.is_inline, NodeTree.style, anonBox,
      List.takeWhile_cons, List.dropWhile_cons, Display.as_block]

/-- C1 witness: a mixed child list `[inline, inline, block]` under a block
container is wrapped as `[anonymous [inline, inline], block]`. -/
theorem anonymous_box_insertion_witness :
    from_node_impl { display := .Block }
        (.mk { display := .Block } (some
          [.mk { display := .Inline } none, .mk { display := .Inline } none,
           .mk { display := .Block } none]))
      = .mk { display := .Block } (some ())
          (some [anonBox [.mk { display := .Inline } (some ()) none,
                          .mk { display := .Inline } (some ()) none],
                 .mk { display := .Block } (some ()) none]) := by
  have h := (anonymous_box_insertion { display := .Block } { display := .Block }
    [.mk { display := .Inline } none, .mk { display := .Inline } none,
     .mk { display := .Block } none] rfl).1
  rw [show (InheritedStyle.inherit { display := .Block } { display := .Block })
      = { display := Display.Block } from rfl] at h
  have h2 := h (by
      simp [from_node_impl_leaf, InheritedStyle.inherit, NodeTree.is_inline,
        NodeTree.style])
    (by simp [from_node_impl_leaf, InheritedStyle.inherit, NodeTree.is_inline,
      NodeTree.style])
  rw [h2]
  simp only [List.map_cons, List.map_nil, from_node_impl_leaf,
    InheritedStyle.inherit]
  simp [wrapRuns, NodeTree.is_inline, NodeTree.style, anonBox,
    List.takeWhile_cons, List.dropWhile_cons]

/-! Helper lemmas for the box-blur fixed-point theorem.  The key arithmetic
fact: when the fixed-point reciprocal `mul` rounds up (`2^23 ≤ d * mul`), the
multiply-and-shift of a uniform window sum `v * d` returns exactly `v`. -/

/-- One pixel row of a per-channel uniform buffer. -/
def colRow (S : ℕ) (color : ℕ → ℕ) : List ℕ :=
  (List.range S).map color

theorem uniform_out (v d mul : ℕ) (hv : v ≤ 255) (hd24 : d ≤ 2 ^ 24)
    (hround : 2 ^ 23 ≤ d * mul)
    (hslack : v * (d * mul - 2 ^ 23) < 2 ^ 23) :
    ((((v * d) * mul) % U32_MOD) >>> 23) % 2 ^ 8 = v
  ∧ v * d + v < U32_MOD
  ∧ (v * d) * mul < U32_MOD := by
  have hAssoc : (v * d) * mul = v * 2 ^ 23 + v * (d * mul - 2 ^ 23) := by
    rw [mul_assoc]
    have h1 : d * mul = 2 ^ 23 + (d * mul - 2 ^ 23) := by omega
    calc v * (d * mul) = v * (2 ^ 23 + (d * mul - 2 ^ 23)) := by rw [← h1]
      _ = v * 2 ^ 23 + v * (d * mul - 2 ^ 23) := Nat.mul_add v _ _
  have hvd : v * d ≤ 255 * d := Nat.mul_le_mul_right d hv
  have hlt : (v * d) * mul < U32_MOD := by
    rw [hAssoc]
    simp only [U32_MOD]
    omega
  refine ⟨?_, ?_, hlt⟩
  · rw [Nat.mod_eq_of_lt hlt, hAssoc, Nat.shiftRight_eq_div_pow]
    omega
  · simp only [U32_MOD]
    omega

/-- The sliding-window update of `blurPhaseStep` (add the entering byte, then
subtract the leaving byte, both equal to the channel value) leaves a window
sum `v * d` unchanged. -/
theorem slide_preserves (v d : ℕ) (hbound : v * d + v < U32_MOD) :
    ((v * d + v) % U32_MOD + (U32_MOD - v % U32_MOD)) % U32_MOD = v * d := by
  have hv : v < U32_MOD := by omega
  rw [Nat.mod_eq_of_lt hbound, Nat.mod_eq_of_lt hv]
  have hsplit : v * d + v + (U32_MOD - v) = v * d + U32_MOD := by omega
  rw [hsplit, Nat.add_mod_right]
  exact Nat.mod_eq_of_lt (by omega)

/-- A whole sliding-window phase over a per-channel uniform source: every
position emits the channel-value row, and the window sums are preserved. -/
theorem blurPhase_uniform (S' mul d : ℕ) (src value : ℕ → ℕ)
    (enterOff leaveOff : ℕ → ℕ)
    (hbound : ∀ c, c < S' → value c * d + value c < U32_MOD)
    (hout : ∀ c, c < S' →
      (((value c * d) * mul) % U32_MOD) >>> 23 % 2 ^ 8 = value c) :
    ∀ (xs : List ℕ) (sums : ℕ → ℕ) (acc : List ℕ),
    (∀ x ∈ xs, ∀ c, c < S' → src (enterOff x + c) = value c) →
    (∀ x ∈ xs, ∀ c, c < S' → src (leaveOff x + c) = value c) →
    (∀ c, c < S' → sums c = value c * d) →
    (blurPhase S' mul 23 src enterOff leaveOff xs sums acc).1
        = acc ++ (List.replicate xs.length (colRow S' value)).flatten
      ∧ (∀ c, c < S' →
          (blurPhase S' mul 23 src enterOff leaveOff xs sums acc).2 c
            = value c * d) := by
  intro xs
  induction xs with
  | nil =>
    intro sums acc _ _ hsums
    exact ⟨by simp [blurPhase], hsums⟩
  | cons x rest ih =>
    intro sums acc henter hleave hsums
    have hx_enter : ∀ c, c < S' → src (enterOff x + c) = value c :=
      fun c hc => henter x (by simp) c hc
    have hx_leave : ∀ c, c < S' → src (leaveOff x + c) = value c :=
      fun c hc => hleave x (by simp) c hc
    have hstep_out :
        (blurPhaseStep S' mul 23 src (enterOff x) (leaveOff x) sums).1
          = colRow S' value := by
      simp only [blurPhaseStep, colRow]
      apply List.map_congr_left
      intro c hc
      have hc' : c < S' := List.mem_range.mp hc
      rw [hsums c hc']
      exact hout c hc'
    have hstep_sums : ∀ c, c < S' →
        (blurPhaseStep S' mul 23 src (enterOff x) (leaveOff x) sums).2 c
          = value c * d := by
      intro c hc
      simp only [blurPhaseStep]
      rw [hsums c hc, hx_enter c hc, hx_leave c hc]
      exact slide_preserves (value c) d (hbound c hc)
    have hrec := ih (blurPhaseStep S' mul 23 src (enterOff x) (leaveOff x) sums).2
      (acc ++ (blurPhaseStep S' mul 23 src (enterOff x) (leaveOff x) sums).1)
      (fun x' hx' c hc => henter x' (by simp [hx']) c hc)
      (fun x' hx' c hc => hleave x' (by simp [hx']) c hc)
      hstep_sums
    constructor
    · have hphase : (blurPhase S' mul 23 src enterOff leaveOff (x :: rest) sums acc)
          = blurPhase S' mul 23 src enterOff leaveOff rest
              (blurPhaseStep S' mul 23 src (enterOff x) (leaveOff x) sums).2
              (acc ++ (blurPhaseStep S' mul 23 src (enterOff x) (leaveOff x) sums).1) := by
        rw [blurPhase]
      rw [hphase, hrec.1, hstep_out]
      simp [List.replicate_succ, List.append_assoc]
    · intro c hc
      have hphase : (blurPhase S' mul 23 src enterOff leaveOff (x :: rest) sums acc)
          = blurPhase S' mul 23 src enterOff leaveOff rest
              (blurPhaseStep S' mul 23 src (enterOff x) (leaveOff x) sums).2
              (acc ++ (blurPhaseStep S' mul 23 src (enterOff x) (leaveOff x) sums).1) := by
        rw [blurPhase]
      rw [hphase]
      exact hrec.2 c hc

/-- A window-initialisation fold over a per-channel uniform source adds the
channel value once per step. -/
theorem foldAdd_uniform (S' : ℕ) (src value : ℕ → ℕ) (off : ℕ → ℕ) :
    ∀ (dxs : List ℕ) (s0 : ℕ → ℕ) (m : ℕ),
    (∀ dx ∈ dxs, ∀ c, c < S' → src (off dx + c) = value c) →
    (∀ c, c < S' → s0 c = value c * m) →
    (∀ c, c < S' → value c * (m + dxs.length) < U32_MOD) →
    ∀ c, c < S' →
      (dxs.foldl (fun sums dx => fun c => (sums c + src (off dx + c)) % U32_MOD) s0) c
        = value c * (m + dxs.length) := by
  intro dxs
  induction dxs with
  | nil =>
    intro s0 m _ hs0 _ c hc
    simpa using hs0 c hc
  | cons dx rest ih =>
    intro s0 m hsrc hs0 hb c hc
    have hstep : ∀ c', c' < S' →
        ((fun c' => (s0 c' + src (off dx + c')) % U32_MOD)) c' = value c' * (m + 1) := by
      intro c' hc'
      simp only
      rw [hs0 c' hc', hsrc dx (by simp) c' hc']
      have hlt : value c' * (m + 1) < U32_MOD := by
        have hmono : value c' * (m + 1) ≤ value c' * (m + (rest.length + 1)) :=
          Nat.mul_le_mul_left _ (by omega)
        have := hb c' hc'
        simp only [List.length_cons] at this
        omega
      rw [show value c' * m + value c' = value c' * (m + 1) by ring]
      exact Nat.mod_eq_of_lt hlt
    have := ih (fun c' => (s0 c' + src (off dx + c')) % U32_MOD) (m + 1)
      (fun dx' hdx' c' hc' => hsrc dx' (by simp [hdx']) c' hc')
      hstep
      (fun c' hc' => by
        have := hb c' hc'
        simp only [List.length_cons] at this
        rw [show m + 1 + rest.length = m + (rest.length + 1) by omega]
        exact this)
      c hc
    simp only [List.foldl_cons, List.length_cons]
    rw [this]
    ring_nf

theorem box_blur_h_row_uniform (S : ℕ) (p : BlurPassParams)
    (src color : ℕ → ℕ) (y : ℕ)
    (hw : 1 ≤ p.width) (hstride : p.stride = p.width * S)
    (hshg : p.shg = 23)
    (hd24 : 2 * p.radius + 1 ≤ 2 ^ 24)
    (hround : 2 ^ 23 ≤ (2 * p.radius + 1) * p.mul_val)
    (hcolor : ∀ c, color c ≤ 255)
    (hslack : ∀ c, color c * ((2 * p.radius + 1) * p.mul_val - 2 ^ 23) < 2 ^ 23)
    (hy : y < p.height)
    (hsrc : ∀ m c, m < p.height * p.width → c < S → src (m * S + c) = color c) :
    box_blur_h_row S p src y
      = (List.replicate p.width (colRow S color)).flatten := by
  have hread : ∀ q c, q < p.width → c < S →
      src (y * p.stride + q * S + c) = color c := by
    intro q c hq hc
    have heq : y * p.stride + q * S + c = (y * p.width + q) * S + c := by
      rw [hstride]
      ring
    rw [heq]
    refine hsrc _ _ ?_ hc
    calc y * p.width + q < y * p.width + p.width := by omega
      _ = (y + 1) * p.width := by ring
      _ ≤ p.height * p.width := Nat.mul_le_mul_right _ (by omega)
  have harith := fun c => uniform_out (color c) (2 * p.radius + 1) p.mul_val
    (hcolor c) hd24 hround (hslack c)
  have hbound : ∀ c, c < S →
      color c * (2 * p.radius + 1) + color c < U32_MOD :=
    fun c _ => (harith c).2.1
  have hout : ∀ c, c < S →
      (((color c * (2 * p.radius + 1)) * p.mul_val) % U32_MOD) >>> 23 % 2 ^ 8
        = color c :=
    fun c _ => (harith c).1
  -- the initial window sums
  have hlen : (List.range' 1 p.radius).length = p.radius :=
    List.length_range' 1 1 p.radius
  have hsums0 : ∀ c, c < S →
      blurInitSums S p src (y * p.stride) c = color c * (2 * p.radius + 1) := by
    intro c hc
    have hoff' : ∀ dx ∈ List.range' 1 p.radius, ∀ c', c' < S →
        src (y * p.stride + min dx (p.width - 1) * S + c') = color c' := by
      intro dx _ c' hc'
      exact hread (min dx (p.width - 1)) c' (by omega) hc'
    have hs0' : ∀ c', c' < S →
        (src (y * p.stride + c') * (p.radius + 1)) % U32_MOD
          = color c' * (p.radius + 1) := by
      intro c' hc'
      have h0 : src (y * p.stride + c') = color c' := by
        simpa using hread 0 c' (by omega) hc'
      rw [h0]
      apply Nat.mod_eq_of_lt
      have hmono : color c' * (p.radius + 1) ≤ color c' * (2 * p.radius + 1) :=
        Nat.mul_le_mul_left _ (by omega)
      have := hbound c' hc'
      omega
    have heqlen : (p.radius + 1) + (List.range' 1 p.radius).length
        = 2 * p.radius + 1 := by
      rw [hlen]
      omega
    have hb' : ∀ c', c' < S →
        color c' * ((p.radius + 1) + (List.range' 1 p.radius).length)
          < U32_MOD := by
      intro c' hc'
      have := hbound c' hc'
      rw [heqlen]
      omega
    have hfold := foldAdd_uniform S src color
      (fun dx => y * p.stride + min dx (p.width - 1) * S)
      (List.range' 1 p.radius)
      (fun c => (src (y * p.stride + c) * (p.radius + 1)) % U32_MOD)
      (p.radius + 1)
      hoff' hs0' hb' c hc
    rw [heqlen] at hfold
    simpa [blurInitSums] using hfold
  -- abbreviations for the phase boundaries
  have hle : min (p.radius + 1) p.width ≤ max (p.width - (p.radius + 1))
      (min (p.radius + 1) p.width) := le_max_right _ _
  have hmw : max (p.width - (p.radius + 1)) (min (p.radius + 1) p.width)
      ≤ p.width := by
    rcases max_choice (p.width - (p.radius + 1)) (min (p.radius + 1) p.width)
      with hm | hm <;> rw [hm] <;> omega
  -- phase 1
  have hphase1 := blurPhase_uniform S p.mul_val (2 * p.radius + 1) src color
    (fun x => y * p.stride + min (x + p.radius + 1) (p.width - 1) * S)
    (fun _ => y * p.stride)
    hbound hout
    (List.range' 0 (min (p.radius + 1) p.width))
    (blurInitSums S p src (y * p.stride)) []
    (fun x _ c hc => hread (min (x + p.radius + 1) (p.width - 1)) c
      (by omega) hc)
    (fun x _ c hc => by
      have := hread 0 c (by omega) hc
      simpa using this)
    hsums0
  -- phase 2
  have hphase2 := blurPhase_uniform S p.mul_val (2 * p.radius + 1) src color
    (fun x => y * p.stride + (x + p.radius + 1) * S)
    (fun x => y * p.stride + (x - p.radius) * S)
    hbound hout
    (List.range' (min (p.radius + 1) p.width)
      (max (p.width - (p.radius + 1)) (min (p.radius + 1) p.width)
        - min (p.radius + 1) p.width))
    (blurPhase S p.mul_val 23 src
      (fun x => y * p.stride + min (x + p.radius + 1) (p.width - 1) * S)
      (fun _ => y * p.stride)
      (List.range' 0 (min (p.radius + 1) p.width))
      (blurInitSums S p src (y * p.stride)) []).2 []
    (fun x hx c hc => by
      rw [List.mem_range'_1] at hx
      have hx2 : x < max (p.width - (p.radius + 1)) (min (p.radius + 1) p.width) := by
        omega
      have hxw : x + p.radius + 1 < p.width := by
        rcases max_choice (p.width - (p.radius + 1)) (min (p.radius + 1) p.width)
          with hm | hm <;> rw [hm] at hx2 <;> omega
      exact hread (x + p.radius + 1) c (by omega) hc)
    (fun x hx c hc => by
      rw [List.mem_range'_1] at hx
      have hx2 : x < max (p.width - (p.radius + 1)) (min (p.radius + 1) p.width) := by
        omega
      exact hread (x - p.radius) c (by omega) hc)
    hphase1.2
  -- phase 3
  have hphase3 := blurPhase_uniform S p.mul_val (2 * p.radius + 1) src color
    (fun _ => y * p.stride + (p.width - 1) * S)
    (fun x => y * p.stride + (x - p.radius) * S)
    hbound hout
    (List.range' (max (p.width - (p.radius + 1)) (min (p.radius + 1) p.width))
      (p.width - max (p.width - (p.radius + 1)) (min (p.radius + 1) p.width)))
    (blurPhase S p.mul_val 23 src
      (fun x => y * p.stride + (x + p.radius + 1) * S)
      (fun x => y * p.stride + (x - p.radius) * S)
      (List.range' (min (p.radius + 1) p.width)
        (max (p.width - (p.radius + 1)) (min (p.radius + 1) p.width)
          - min (p.radius + 1) p.width))
      (blurPhase S p.mul_val 23 src
        (fun x => y * p.stride + min (x + p.radius + 1) (p.width - 1) * S)
        (fun _ => y * p.stride)
        (List.range' 0 (min (p.radius + 1) p.width))
        (blurInitSums S p src (y * p.stride)) []).2 []).2 []
    (fun x _ c hc => hread (p.width - 1) c (by omega) hc)
    (fun x hx c hc => by
      rw [List.mem_range'_1] at hx
      exact hread (x - p.radius) c (by omega) hc)
    hphase2.2
  -- assemble the row
  simp only [box_blur_h_row, hshg]
  rw [hphase1.1, hphase2.1, hphase3.1]
  simp only [List.nil_append, List.length_range']
  rw [← List.flatten_append, ← List.flatten_append, ← List.replicate_add,
    ← List.replicate_add]
  congr 2
  omega

theorem flatten_replicate_flatten (h w : ℕ) (l : List ℕ) :
    (List.replicate h ((List.replicate w l).flatten)).flatten
      = (List.replicate (h * w) l).flatten := by
  induction h with
  | zero => simp
  | succ k ih =>
    rw [List.replicate_succ, List.flatten_cons, ih,
      show (k + 1) * w = w + k * w from by ring, List.replicate_add,
      List.flatten_append]

theorem range_mod_map (S w : ℕ) (color : ℕ → ℕ) :
    (List.range (w * S)).map (fun x => color (x % S))
      = (List.replicate w ((List.range S).map color)).flatten := by
  induction w with
  | zero => simp
  | succ k ih =>
    rw [show (k + 1) * S = k * S + S from by ring, List.range_add,
      List.map_append, ih, List.map_map]
    have hlast : (List.range S).map ((fun x => color (x % S)) ∘ (k * S + ·))
        = (List.range S).map color := by
      apply List.map_congr_left
      intro i hi
      have hi' : i < S := List.mem_range.mp hi
      simp only [Function.comp]
      rw [Nat.add_comm (k * S) i, Nat.add_mul_mod_self_right,
        Nat.mod_eq_of_lt hi']
    rw [hlast, List.replicate_succ', List.flatten_append,
      List.flatten_cons, List.flatten_nil, List.append_nil]

theorem box_blur_h_uniform (S : ℕ) (p : BlurPassParams)
    (src color : ℕ → ℕ)
    (hw : 1 ≤ p.width) (hstride : p.stride = p.width * S)
    (hshg : p.shg = 23)
    (hd24 : 2 * p.radius + 1 ≤ 2 ^ 24)
    (hround : 2 ^ 23 ≤ (2 * p.radius + 1) * p.mul_val)
    (hcolor : ∀ c, color c ≤ 255)
    (hslack : ∀ c, color c * ((2 * p.radius + 1) * p.mul_val - 2 ^ 23) < 2 ^ 23)
    (hsrc : ∀ m c, m < p.height * p.width → c < S → src (m * S + c) = color c) :
    box_blur_h S p src
      = (List.replicate (p.height * p.width) (colRow S color)).flatten := by
  unfold box_blur_h
  have hmap : (List.range p.height).map (box_blur_h_row S p src)
      = (List.range p.height).map
          (fun _ => (List.replicate p.width (colRow S color)).flatten) := by
    apply List.map_congr_left
    intro y hy
    exact box_blur_h_row_uniform S p src color y hw hstride hshg hd24 hround
      hcolor hslack (List.mem_range.mp hy) hsrc
  rw [hmap, List.map_const', List.length_range]
  exact flatten_replicate_flatten p.height p.width (colRow S color)

theorem box_blur_v_uniform (S : ℕ) (p : BlurPassParams)
    (src color : ℕ → ℕ)
    (hS : 1 ≤ S) (hh : 1 ≤ p.height) (hstride : p.stride = p.width * S)
    (hshg : p.shg = 23)
    (hd24 : 2 * p.radius + 1 ≤ 2 ^ 24)
    (hround : 2 ^ 23 ≤ (2 * p.radius + 1) * p.mul_val)
    (hcolor : ∀ c, color c ≤ 255)
    (hslack : ∀ c, color c * ((2 * p.radius + 1) * p.mul_val - 2 ^ 23) < 2 ^ 23)
    (hsrc : ∀ m c, m < p.height * p.width → c < S → src (m * S + c) = color c) :
    box_blur_v p src
      = (List.replicate (p.height * p.width) (colRow S color)).flatten := by
  have hreadV : ∀ q x, q < p.height → x < p.stride →
      src (q * p.stride + x) = color (x % S) := by
    intro q x hq hx
    have hxs : x < p.width * S := by rw [← hstride]; exact hx
    have hdiv : x / S < p.width := by
      rw [Nat.div_lt_iff_lt_mul (by omega : 0 < S)]
      calc x < p.width * S := hxs
        _ = p.width * S := rfl
    have heq : q * p.stride + x = (q * p.width + x / S) * S + x % S := by
      rw [hstride]
      have hx2 : x = x / S * S + x % S := by
        calc x = S * (x / S) + x % S := (Nat.div_add_mod x S).symm
          _ = x / S * S + x % S := by ring
      calc q * (p.width * S) + x = q * (p.width * S) + (x / S * S + x % S) := by
            rw [← hx2]
        _ = (q * p.width + x / S) * S + x % S := by ring
    rw [heq]
    refine hsrc _ _ ?_ (Nat.mod_lt x (by omega))
    calc q * p.width + x / S < q * p.width + p.width := by omega
      _ = (q + 1) * p.width := by ring
      _ ≤ p.height * p.width := Nat.mul_le_mul_right _ (by omega)
  have harith := fun c => uniform_out (color c) (2 * p.radius + 1) p.mul_val
    (hcolor c) hd24 hround (hslack c)
  have hboundV : ∀ x, x < p.stride →
      color (x % S) * (2 * p.radius + 1) + color (x % S) < U32_MOD :=
    fun x _ => (harith (x % S)).2.1
  have houtV : ∀ x, x < p.stride →
      (((color (x % S) * (2 * p.radius + 1)) * p.mul_val) % U32_MOD) >>> 23
          % 2 ^ 8 = color (x % S) :=
    fun x _ => (harith (x % S)).1
  -- the initial window sums of the vertical pass
  have hlen : (List.range' 1 p.radius).length = p.radius :=
    List.length_range' 1 1 p.radius
  have heqlen : (p.radius + 1) + (List.range' 1 p.radius).length
      = 2 * p.radius + 1 := by
    rw [hlen]
    omega
  have hsums0 : ∀ x, x < p.stride →
      ((List.range' 1 p.radius).foldl
        (fun sums dy => fun x =>
          (sums x + src (min dy (p.height - 1) * p.stride + x)) % U32_MOD)
        (fun x => (src x * (p.radius + 1)) % U32_MOD)) x
        = color (x % S) * (2 * p.radius + 1) := by
    intro x hx
    have hoff' : ∀ dy ∈ List.range' 1 p.radius, ∀ x', x' < p.stride →
        src (min dy (p.height - 1) * p.stride + x') = color (x' % S) := by
      intro dy _ x' hx'
      exact hreadV (min dy (p.height - 1)) x' (by omega) hx'
    have hs0' : ∀ x', x' < p.stride →
        (src x' * (p.radius + 1)) % U32_MOD
          = color (x' % S) * (p.radius + 1) := by
      intro x' hx'
      have h0 : src x' = color (x' % S) := by
        simpa using hreadV 0 x' (by omega) hx'
      rw [h0]
      apply Nat.mod_eq_of_lt
      have hmono : color (x' % S) * (p.radius + 1)
          ≤ color (x' % S) * (2 * p.radius + 1) :=
        Nat.mul_le_mul_left _ (by omega)
      have := hboundV x' hx'
      omega
    have hb' : ∀ x', x' < p.stride →
        color (x' % S) * ((p.radius + 1) + (List.range' 1 p.radius).length)
          < U32_MOD := by
      intro x' hx'
      have := hboundV x' hx'
      rw [heqlen]
      omega
    have hfold := foldAdd_uniform p.stride src (fun x => color (x % S))
      (fun dy => min dy (p.height - 1) * p.stride)
      (List.range' 1 p.radius)
      (fun x => (src x * (p.radius + 1)) % U32_MOD)
      (p.radius + 1)
      (fun dy hdy x' hx' => hoff' dy hdy x' hx')
      hs0' hb' x hx
    rw [heqlen] at hfold
    exact hfold
  -- phase boundaries of the vertical pass
  have hle : min (p.radius + 1) p.height ≤ max (p.height - (p.radius + 1))
      (min (p.radius + 1) p.height) := le_max_right _ _
  have hmh : max (p.height - (p.radius + 1)) (min (p.radius + 1) p.height)
      ≤ p.height := by
    rcases max_choice (p.height - (p.radius + 1)) (min (p.radius + 1) p.height)
      with hm | hm <;> rw [hm] <;> omega
  -- the three vertical phases over a uniform source
  have hphase1 := blurPhase_uniform p.stride p.mul_val (2 * p.radius + 1) src
    (fun x => color (x % S))
    (fun y' => min (y' + p.radius + 1) (p.height - 1) * p.stride)
    (fun _ => 0)
    hboundV houtV
    (List.range' 0 (min (p.radius + 1) p.height))
    ((List.range' 1 p.radius).foldl
      (fun sums dy => fun x =>
        (sums x + src (min dy (p.height - 1) * p.stride + x)) % U32_MOD)
      (fun x => (src x * (p.radius + 1)) % U32_MOD)) []
    (fun y' _ x hx => hreadV (min (y' + p.radius + 1) (p.height - 1)) x
      (by omega) hx)
    (fun y' _ x hx => by
      simpa using hreadV 0 x (by omega) hx)
    hsums0
  have hphase2 := blurPhase_uniform p.stride p.mul_val (2 * p.radius + 1) src
    (fun x => color (x % S))
    (fun y' => (y' + p.radius + 1) * p.stride)
    (fun y' => (y' - p.radius) * p.stride)
    hboundV houtV
    (List.range' (min (p.radius + 1) p.height)
      (max (p.height - (p.radius + 1)) (min (p.radius + 1) p.height)
        - min (p.radius + 1) p.height))
    (blurPhase p.stride p.mul_val 23 src
      (fun y' => min (y' + p.radius + 1) (p.height - 1) * p.stride)
      (fun _ => 0)
      (List.range' 0 (min (p.radius + 1) p.height))
      ((List.range' 1 p.radius).foldl
        (fun sums dy => fun x =>
          (sums x + src (min dy (p.height - 1) * p.stride + x)) % U32_MOD)
        (fun x => (src x * (p.radius + 1)) % U32_MOD)) []).2 []
    (fun y' hy' x hx => by
      rw [List.mem_range'_1] at hy'
      have hy2 : y' < max (p.height - (p.radius + 1))
          (min (p.radius + 1) p.height) := by omega
      have hyh : y' + p.radius + 1 < p.height := by
        rcases max_choice (p.height - (p.radius + 1))
          (min (p.radius + 1) p.height) with hm | hm <;> rw [hm] at hy2 <;> omega
      exact hreadV (y' + p.radius + 1) x (by omega) hx)
    (fun y' hy' x hx => by
      rw [List.mem_range'_1] at hy'
      have hy2 : y' < max (p.height - (p.radius + 1))
          (min (p.radius + 1) p.height) := by omega
      exact hreadV (y' - p.radius) x (by omega) hx)
    hphase1.2
  have hphase3 := blurPhase_uniform p.stride p.mul_val (2 * p.radius + 1) src
    (fun x => color (x % S))
    (fun _ => (p.height - 1) * p.stride)
    (fun y' => (y' - p.radius) * p.stride)
    hboundV houtV
    (List.range' (max (p.height - (p.radius + 1)) (min (p.radius + 1) p.height))
      (p.height - max (p.height - (p.radius + 1)) (min (p.radius + 1) p.height)))
    (blurPhase p.stride p.mul_val 23 src
      (fun y' => (y' + p.radius + 1) * p.stride)
      (fun y' => (y' - p.radius) * p.stride)
      (List.range' (min (p.radius + 1) p.height)
        (max (p.height - (p.radius + 1)) (min (p.radius + 1) p.height)
          - min (p.radius + 1) p.height))
      (blurPhase p.stride p.mul_val 23 src
        (fun y' => min (y' + p.radius + 1) (p.height - 1) * p.stride)
        (fun _ => 0)
        (List.range' 0 (min (p.radius + 1) p.height))
        ((List.range' 1 p.radius).foldl
          (fun sums dy => fun x =>
            (sums x + src (min dy (p.height - 1) * p.stride + x)) % U32_MOD)
          (fun x => (src x * (p.radius + 1)) % U32_MOD)) []).2 []).2 []
    (fun y' _ x hx => hreadV (p.height - 1) x (by omega) hx)
    (fun y' hy' x hx => by
      rw [List.mem_range'_1] at hy'
      exact hreadV (y' - p.radius) x (by omega) hx)
    hphase2.2
  -- assemble the vertical pass
  simp only [box_blur_v, box_blur_v_row, hshg]
  rw [hphase1.1, hphase2.1, hphase3.1]
  simp only [List.nil_append, List.length_range']
  rw [← List.flatten_append, ← List.flatten_append, ← List.replicate_add,
    ← List.replicate_add]
  have hcount : min (p.radius + 1) p.height
      + (max (p.height - (p.radius + 1)) (min (p.radius + 1) p.height)
          - min (p.radius + 1) p.height)
      + (p.height
          - max (p.height - (p.radius + 1)) (min (p.radius + 1) p.height))
      = p.height := by omega
  rw [hcount]
  have hrow : colRow p.stride (fun x => color (x % S))
      = (List.replicate p.width (colRow S color)).flatten := by
    simp only [colRow]
    rw [show p.stride = p.width * S from hstride]
    exact range_mod_map S p.width color
  rw [hrow]
  exact flatten_replicate_flatten p.height p.width (colRow S color)

theorem uniform_getD (S : ℕ) (color : ℕ → ℕ) :
    ∀ (n m c : ℕ), m < n → c < S →
      ((List.replicate n (colRow S color)).flatten).getD (m * S + c) 0
        = color c := by
  intro n
  induction n with
  | zero =>
    intro m c hm _
    omega
  | succ k ih =>
    intro m c hm hc
    rw [List.replicate_succ, List.flatten_cons]
    have hlenrow : (colRow S color).length = S := by simp [colRow]
    cases m with
    | zero =>
      rw [Nat.zero_mul, Nat.zero_add,
        List.getD_append _ _ 0 c (by rw [hlenrow]; exact hc)]
      simp only [colRow]
      rw [List.getD_eq_getElem?_getD, List.getElem?_map, List.getElem?_range hc]
      rfl
    | succ m' =>
      have hidx : (m' + 1) * S + c = S + (m' * S + c) := by ring
      rw [hidx, List.getD_append_right _ _ 0 _ (by rw [hlenrow]; omega)]
      rw [hlenrow, show S + (m' * S + c) - S = m' * S + c from by omega]
      exact ih m' c (by omega) hc

theorem blurRound_uniform (S : ℕ) (p : BlurPassParams) (color : ℕ → ℕ)
    (hS : 1 ≤ S) (hw : 1 ≤ p.width) (hh : 1 ≤ p.height)
    (hstride : p.stride = p.width * S) (hshg : p.shg = 23)
    (hd24 : 2 * p.radius + 1 ≤ 2 ^ 24)
    (hround : 2 ^ 23 ≤ (2 * p.radius + 1) * p.mul_val)
    (hcolor : ∀ c, color c ≤ 255)
    (hslack : ∀ c, color c * ((2 * p.radius + 1) * p.mul_val - 2 ^ 23) < 2 ^ 23) :
    blurRound S p ((List.replicate (p.height * p.width) (colRow S color)).flatten)
      = (List.replicate (p.height * p.width) (colRow S color)).flatten := by
  have hsrc1 : ∀ m c, m < p.height * p.width → c < S →
      listToFun ((List.replicate (p.height * p.width) (colRow S color)).flatten)
        (m * S + c) = color c := by
    intro m c hm hc
    simp only [listToFun]
    exact uniform_getD S color _ m c hm hc
  unfold blurRound
  rw [box_blur_h_uniform S p _ color hw hstride hshg hd24 hround hcolor hslack
    hsrc1]
  exact box_blur_v_uniform S p _ color hS hh hstride hshg hd24 hround hcolor
    hslack hsrc1

/-- C7 (amended): provided the fixed-point reciprocal rounds up, i.e.
`2^23 ≤ d * mul` where `d = 2 * box_radius + 1` and
`mul = round(2^23 / d)` (true for small box diameters, e.g. every odd
`d ≤ 21`, but false e.g. for `d = 23`), a per-channel uniform fully-opaque
buffer is a fixed point of the horizontal pass, of the vertical pass, and
hence of all three blur rounds, even though each pass computes the windowed
average by a fixed-point multiply and 23-bit shift. -/
theorem box_blur_uniform_fixed_point (S : ℕ) (p : BlurPassParams)
    (src color : ℕ → ℕ)
    (hS : 1 ≤ S) (hw : 1 ≤ p.width) (hh : 1 ≤ p.height)
    (hstride : p.stride = p.width * S) (hshg : p.shg = 23)
    (_hmulval : p.mul_val = (compute_mul_shg (2 * p.radius + 1)).1)
    (hd24 : 2 * p.radius + 1 ≤ 2 ^ 24)
    (hround : 2 ^ 23 ≤ (2 * p.radius + 1) * p.mul_val)
    (hcolor : ∀ c, color c ≤ 255)
    (hslack : ∀ c, color c * ((2 * p.radius + 1) * p.mul_val - 2 ^ 23) < 2 ^ 23)
    (hsrc : ∀ m c, m < p.height * p.width → c < S → src (m * S + c) = color c) :
    (box_blur_h S p src
        = (List.replicate (p.height * p.width) (colRow S color)).flatten)
  ∧ (box_blur_v p src
        = (List.replicate (p.height * p.width) (colRow S color)).flatten)
  ∧ (blurRound S p
        ((List.replicate (p.height * p.width) (colRow S color)).flatten)
        = (List.replicate (p.height * p.width) (colRow S color)).flatten)
  ∧ (blurRound S p (blurRound S p (blurRound S p
        ((List.replicate (p.height * p.width) (colRow S color)).flatten)))
        = (List.replicate (p.height * p.width) (colRow S color)).flatten) := by
  have hone := blurRound_uniform S p color hS hw hh hstride hshg hd24 hround
    hcolor hslack
  refine ⟨?_, ?_, hone, ?_⟩
  · exact box_blur_h_uniform S p src color hw hstride hshg hd24 hround hcolor
      hslack hsrc
  · exact box_blur_v_uniform S p src color hS hh hstride hshg hd24 hround
      hcolor hslack hsrc
  · rw [hone, hone, hone]

/-- C7 witness: a 2×2 single-channel buffer of value 200 with box radius 1
(`d = 3`, `mul = 2796203`, which rounds up) is unchanged by all three blur
rounds. -/
theorem box_blur_uniform_fixed_point_witness :
    blurRound 1 ⟨2, 2, 1, 2, 2796203, 23⟩ (blurRound 1 ⟨2, 2, 1, 2, 2796203, 23⟩
        (blurRound 1 ⟨2, 2, 1, 2, 2796203, 23⟩
          ((List.replicate (2 * 2) (colRow 1 (fun _ => 200))).flatten)))
      = (List.replicate (2 * 2) (colRow 1 (fun _ => 200))).flatten := by
  have h := (box_blur_uniform_fixed_point 1 ⟨2, 2, 1, 2, 2796203, 23⟩
    (fun _ => 200) (fun _ => 200)
    (by norm_num) (by norm_num) (by norm_num) rfl rfl
    (by norm_num [compute_mul_shg])
    (by norm_num) (by norm_num)
    (fun c => by norm_num)
    (fun c => by norm_num)
    (fun m c _ _ => rfl)).2.2.2
  exact h

set_option maxRecDepth 40000 in
/-- C7 counterexample: with `σ = 11` (a `filter: blur(11px)`), the box
diameter is `d = 23`, whose reciprocal `round(2^23 / 23) = 364722` rounds
DOWN (`23 * 364722 = 8388606 < 2^23`); blurring a fully-opaque solid 3×3
image of value 255 then lowers every pixel — the centre (interior) pixel
comes back as 249, not 255, so the uniform buffer is not a fixed point of
the 3-pass box blur. -/
theorem box_blur_uniform_counterexample :
    BlurType.Filter.to_sigma 11 = 11
  ∧ ¬ ((11 : ℚ) ≤ 1 / 2)
  ∧ boxRadius 11 = 11
  ∧ compute_mul_shg (2 * 11 + 1) = (364722, 23)
  ∧ 23 * 364722 < 2 ^ 23
  ∧ apply_blur 1 3 3 11 BlurType.Filter (List.replicate 9 255)
      = List.replicate 9 249
  ∧ (apply_blur 1 3 3 11 BlurType.Filter (List.replicate 9 255)).getD 4 0
      = 249 := by
  have hbr : boxRadius 11 = 11 := by
    have hnum : ((11 : ℚ)).num = 11 := by norm_num
    have hden : ((11 : ℚ)).den = 1 := by norm_num
    have hsqrt : Nat.sqrt 485 = 22 := by
      have h1 : 22 ≤ Nat.sqrt 485 := Nat.le_sqrt.mpr (by norm_num)
      have h2 : Nat.sqrt 485 < 23 := by
        rw [Nat.sqrt_lt]
        norm_num
      omega
    simp only [boxRadius, hnum, hden]
    rw [show ((4 * (11 : ℤ) * 11).toNat + 1 * 1) = 485 from by decide, hsqrt]
    norm_num
  have hblur : apply_blur 1 3 3 11 BlurType.Filter (List.replicate 9 255)
      = List.replicate 9 249 := by
    simp only [apply_blur]
    rw [if_neg (by norm_num [BlurType.to_sigma]),
      if_neg (by norm_num)]
    rw [show BlurType.Filter.to_sigma 11 = 11 from rfl, hbr]
    decide
  refine ⟨rfl, by norm_num, hbr, by decide, by decide, hblur, ?_⟩
  rw [hblur]
  decide

end Takumi
